import Mathlib

set_option maxRecDepth 100000

/-!
Verification development for the `mcp-dev-assistant` MCP server, centred on the
Deployment Reconciliation Engine: `setupProjectRules` in `src/index.ts` together
with the deployment-history store in `src/database.ts`.

The TypeScript is embedded shallowly:

* strings are Lean `String`s, but every operation on them (suffix test, lexical
  comparison, global replacement) is re-implemented by structural recursion on
  `String.data` so that proofs can evaluate inside the kernel;
* the SQLite store (`facts`, `rule_deployments`, `rule_files` tables with
  `INTEGER PRIMARY KEY AUTOINCREMENT` ids) is an append-only record of rows, a
  fresh id being one more than the number of rows already present — which is
  exactly what AUTOINCREMENT yields for a store that is never deleted from;
* `ContextDatabase.generateHash` (hex-encoded SHA-256 of the content) is a
  parameter `hash : String → String` of the engine: the engine only ever
  compares hash values for equality, so every theorem holds for the real hash
  function.  Where JavaScript truthiness of a hash string matters the model
  keeps the `h ≠ ""` test verbatim (a SHA-256 hex digest is never empty);
* filesystem effects are explicit: the rules directory is a list of named files,
  and the environment records which writes and backup copies succeed;
* the sequence of externally visible effects of one invocation is returned as a
  trace of events, mirroring the statement order of `setupProjectRules`.
-/

/-! ## String primitives (JavaScript semantics, on `List Char`) -/

/-- Lexicographic strict comparison of character lists; ASCII byte order, which
is how SQLite compares the `DATETIME` text values in `ORDER BY deployed_at`. -/
def lexLt : List Char → List Char → Bool
  | [], [] => false
  | [], _ :: _ => true
  | _ :: _, [] => false
  | x :: xs, y :: ys => if x = y then lexLt xs ys else decide (x < y)

/-- JavaScript `String.prototype.endsWith` for a literal suffix. -/
def jsEndsWith (s suffix : String) : Bool :=
  suffix.data.isSuffixOf s.data

/-- One step bound of `jsReplaceAll`: replace occurrences of `pat` left to
right, non-overlapping, with at most `fuel` positions inspected. -/
def replaceAux (pat rep : List Char) : List Char → Nat → List Char
  | l, 0 => l
  | [], _ + 1 => []
  | c :: rest, fuel + 1 =>
    if pat.isPrefixOf (c :: rest) then
      rep ++ replaceAux pat rep (List.drop pat.length (c :: rest)) fuel
    else
      c :: replaceAux pat rep rest fuel

/-- JavaScript `s.replace(/pat/g, rep)` for the literal pattern `pat`
(the engine only uses the pattern `{timestamp}`). -/
def jsReplaceAll (s pat rep : String) : String :=
  if pat.data.isEmpty then s
  else ⟨replaceAux pat.data rep.data s.data s.data.length⟩

/-- Node `path.join a b` for the shapes the engine produces: a single separator
between the two parts. -/
def pathJoin (a b : String) : String :=
  if jsEndsWith a "/" then a ++ b else a ++ "/" ++ b

/-- The fixed two-level subpath `path.join(".cursor", "rules")` (POSIX
separator, as on the platforms the server targets). -/
def cursorRulesSub : String := ".cursor/rules"

/-- Resolution of the rules directory (`src/index.ts`, lines 221–231): a
supplied non-empty workspace path is used as-is when it already ends in
`.cursor/rules`, otherwise the subpath is appended; an absent or empty
(JavaScript-falsy) path falls back to the current working directory. -/
def resolveRulesDir (workspacePath : Option String) (cwd : String) : String :=
  match workspacePath with
  | some wp =>
    if wp == "" then pathJoin cwd cursorRulesSub
    else if jsEndsWith wp cursorRulesSub then wp
    else pathJoin wp cursorRulesSub
  | none => pathJoin cwd cursorRulesSub

/-- The backup directory timestamp: `now.toISOString().replace(/[:.]/g, "-")`. -/
def sanitizeTs (ts : String) : String :=
  ⟨ts.data.map fun c => if c = ':' ∨ c = '.' then '-' else c⟩

/-! ## Data model (`src/database.ts`) -/

/-- One rule artifact of the template set (`src/rules-template.ts`). -/
structure CursorRule where
  filename : String
  content : String
deriving DecidableEq

/-- A row of the `facts` table (interface StoredFact). -/
structure StoredFact where
  id : Nat
  category : String
  fact : String
  context : Option String
  tags : List String
deriving DecidableEq

/-- A row of the `rule_deployments` table. -/
structure RuleDeployment where
  id : Nat
  templateVersion : String
  deployedAt : String
  deployedBy : Option String
  totalFiles : Nat
  backupPath : Option String
deriving DecidableEq

/-- A row of the `rule_files` table. -/
structure RuleFile where
  id : Nat
  deploymentId : Nat
  filename : String
  contentHash : String
deriving DecidableEq

/-- The persistent store: three append-only tables. -/
structure DB where
  facts : List StoredFact
  deployments : List RuleDeployment
  ruleFiles : List RuleFile
deriving DecidableEq

/-- The empty store (a freshly initialised database). -/
def DB.empty : DB := ⟨[], [], []⟩

/-- A file of the rules directory: name, content, and whether reading it
succeeds (an unreadable file is listed by `readdir` but skipped from the hash
inventory). -/
structure DiskFile where
  name : String
  content : String
  readable : Bool
deriving DecidableEq

/-! ## History store operations (`src/database.ts`) -/

/-- `storeFact` (lines 220–239): appends one row to `facts`, returning its id. -/
def storeFact (db : DB) (category fact : String) (context : Option String)
    (tags : List String) : Nat × DB :=
  let id := db.facts.length + 1
  (id, { db with facts := db.facts ++ [⟨id, category, fact, context, tags⟩] })

/-- `storeRuleDeployment` (lines 392–411): appends one row to
`rule_deployments`; `deployed_at` defaults to the current time `now`. -/
def storeRuleDeployment (db : DB) (templateVersion : String) (totalFiles : Nat)
    (deployedBy : Option String) (backupPath : Option String) (now : String) :
    Nat × DB :=
  let id := db.deployments.length + 1
  (id, { db with deployments := db.deployments ++
      [⟨id, templateVersion, now, deployedBy, totalFiles, backupPath⟩] })

/-- `storeRuleFile` (lines 464–482): appends one row to `rule_files`. -/
def storeRuleFile (db : DB) (deploymentId : Nat) (filename contentHash : String) :
    Nat × DB :=
  let id := db.ruleFiles.length + 1
  (id, { db with ruleFiles := db.ruleFiles ++
      [⟨id, deploymentId, filename, contentHash⟩] })

/-- Whether the candidate row wins over the current one in
`ORDER BY deployed_at DESC LIMIT 1`: strictly later `deployed_at`, or the same
`deployed_at` and a larger rowid.  (SQLite serves the query from the index
`idx_rule_deployments_deployed_at`, scanned backwards; entries with equal keys
sit in rowid order, so among ties the largest id comes first.) -/
def laterDep (cur cand : RuleDeployment) : Bool :=
  lexLt cur.deployedAt.data cand.deployedAt.data ||
    (cur.deployedAt == cand.deployedAt && cur.id < cand.id)

/-- `getLatestRuleDeployment` (lines 413–436): the most recent deployment row,
or `none` for a first-ever run. -/
def getLatestRuleDeployment (db : DB) : Option RuleDeployment :=
  db.deployments.foldl
    (fun best d =>
      match best with
      | none => some d
      | some b => if laterDep b d then some d else some b)
    none

/-- `getRuleFiles` (lines 484–505): the `rule_files` rows of one deployment.
(The SQL orders rows by filename; all properties proved below are
membership-level, so the model keeps insertion order.) -/
def getRuleFiles (db : DB) (deploymentId : Nat) : List RuleFile :=
  db.ruleFiles.filter (fun rf => rf.deploymentId == deploymentId)

/-- `getLatestRuleFiles` (lines 507–514): the rows of the latest deployment,
empty when there has never been one. -/
def getLatestRuleFiles (db : DB) : List RuleFile :=
  match getLatestRuleDeployment db with
  | none => []
  | some d => getRuleFiles db d.id

/-- The hash recorded for file `f` under the latest deployment, absent when `f`
was not part of it (the "latest deployed hash" of the data model). -/
def latestDeployedHash (db : DB) (f : String) : Option String :=
  ((getLatestRuleFiles db).find? (fun rf => rf.filename == f)).map
    (fun rf => rf.contentHash)

/-! ## Reconciliation engine (`src/index.ts`, `setupProjectRules`) -/

/-- `TEMPLATE_VERSION` from `src/rules-template.ts`. -/
def TEMPLATE_VERSION : String := "2.0.0"

/-- Inventory: the `.mdc` files listed in the rules directory (lines 255–257). -/
def mdcFiles (disk : List DiskFile) : List DiskFile :=
  disk.filter (fun d => jsEndsWith d.name ".mdc")

/-- The managed-file names of the inventory (`existingFiles`). -/
def existingFiles (disk : List DiskFile) : List String :=
  (mdcFiles disk).map (fun d => d.name)

/-- The on-disk hash of managed file `f` (`existingHashes.get f`): absent when
`f` is not a listed `.mdc` file or is unreadable (lines 259–270; a directory
listing names each file once, so first match is the map entry). -/
def existingHash (hash : String → String) (disk : List DiskFile) (f : String) :
    Option String :=
  (((mdcFiles disk).filter (fun d => d.readable)).find? (fun d => d.name == f)).map
    (fun d => hash d.content)

/-- Rendering one template (line 282): substitute every occurrence of the
timestamp token in the content. -/
def renderRule (ts : String) (t : CursorRule) : CursorRule :=
  ⟨t.filename, jsReplaceAll t.content "{timestamp}" ts⟩

/-- The freshly rendered template set (`newRules`, lines 280–283). -/
def newRules (templates : List CursorRule) (ts : String) : List CursorRule :=
  templates.map (renderRule ts)

/-- The desired hash of artifact `f` (`newHashes.get f`, lines 286–291; template
filenames are pairwise distinct, so first match is the map entry). -/
def newHash (hash : String → String) (rules : List CursorRule) (f : String) :
    Option String :=
  (rules.find? (fun r => r.filename == f)).map (fun r => hash r.content)

/-- `hasChanges` (lines 296–299): some file of the latest deployment has a
readable on-disk hash different from the recorded one.  The JavaScript guard
`currentHash && …` is truthiness, hence the explicit `h ≠ ""` conjunct. -/
def hasChanges (hash : String → String) (disk : List DiskFile)
    (latestFiles : List RuleFile) : Bool :=
  latestFiles.any fun rf =>
    match existingHash hash disk rf.filename with
    | some h => !(h == "") && !(h == rf.contentHash)
    | none => false

/-- `hasNewTemplate` (lines 301–305): some artifact's on-disk hash is absent
(or falsy) or differs from its desired hash. -/
def hasNewTemplate (hash : String → String) (disk : List DiskFile)
    (rules : List CursorRule) : Bool :=
  rules.any fun r =>
    match existingHash hash disk r.filename, newHash hash rules r.filename with
    | none, _ => true
    | some _, none => true
    | some h, some nh => h == "" || !(h == nh)

/-- The filenames reported by the drift warning (lines 327–333). -/
def modifiedFiles (hash : String → String) (disk : List DiskFile)
    (latestFiles : List RuleFile) : List String :=
  (latestFiles.filter fun rf =>
    match existingHash hash disk rf.filename with
    | some h => !(h == "") && !(h == rf.contentHash)
    | none => false).map (fun rf => rf.filename)

/-- One externally visible effect of an invocation, in statement order. -/
inductive Ev where
  | backupCopy (filename : String)
  | storeDeployment (id : Nat)
  | writeFile (filename : String)
  | storeFile (filename : String)
  | verifyFile (filename : String)
  | storeFactEv
deriving DecidableEq

/-- The operation result returned to the caller. -/
inductive SetupResult where
  | upToDate
  | driftWarning (modified : List String) (lastDeployedAt lastDeployedBy : String)
  | deployed (deploymentId : Nat) (filenames : List String)
      (backupPath : Option String)
  | error (msg : String)
deriving DecidableEq

/-- Result, final store, final rules directory and effect trace of one call. -/
structure SetupOutcome where
  result : SetupResult
  db : DB
  disk : List DiskFile
  trace : List Ev
deriving DecidableEq

/-- The inputs and environment of one `setupProjectRules` invocation.  `hash`
stands for `ContextDatabase.generateHash`; `timestamp` is `now.toISOString()`;
`dirWritable` is the outcome of the up-front writability probe; `writeOk` and
`copyOk` record which `fs.writeFile` and `fs.copyFile` calls succeed. -/
structure SetupArgs where
  hash : String → String
  templates : List CursorRule
  forceUpdate : Bool
  backupExisting : Bool
  deployedBy : Option String
  workspacePath : Option String
  cwd : String
  timestamp : String
  dirWritable : Bool
  writeOk : String → Bool
  copyOk : String → Bool

/-- Whether `fs.copyFile` of managed file `f` into the backup directory
succeeds: the source must be readable and the copy itself succeed. -/
def copyOkFor (a : SetupArgs) (disk : List DiskFile) (f : String) : Bool :=
  match disk.find? (fun d => d.name == f) with
  | some d => d.readable && a.copyOk f
  | none => false

/-- The backup loop (lines 360–364): copy each existing managed file in listing
order; the first failing copy aborts.  Returns the copy events performed and
whether the whole backup completed. -/
def runBackup (a : SetupArgs) (disk : List DiskFile) :
    List String → List Ev × Bool
  | [] => ([], true)
  | f :: fs =>
    if copyOkFor a disk f then
      (Ev.backupCopy f :: (runBackup a disk fs).1, (runBackup a disk fs).2)
    else ([], false)

/-- `fs.writeFile` into the rules directory: overwrite the (first) entry of
that name, or create the file. -/
def diskWrite : List DiskFile → String → String → List DiskFile
  | [], n, c => [⟨n, c, true⟩]
  | d :: ds, n, c =>
    if d.name == n then ⟨n, c, true⟩ :: ds else d :: diskWrite ds n c

/-- Whether a file of this name is present (`fs.access`). -/
def diskHas (disk : List DiskFile) (f : String) : Bool :=
  disk.any (fun d => d.name == f)

/-- The write loop (lines 376–393): for each rendered rule in order, write the
file and then record its `rule_files` row with the freshly computed desired
hash; a failing write aborts with the partial state.  Returns the final
directory and store, the events performed, the `deployedFiles` list, and
whether every write succeeded. -/
def runWrites (a : SetupArgs) (nh : String → Option String) (depId : Nat) :
    List CursorRule → List DiskFile → DB →
    List DiskFile × DB × List Ev × List String × Bool
  | [], disk, db => (disk, db, [], [], true)
  | r :: rs, disk, db =>
    if a.writeOk r.filename then
      let k := runWrites a nh depId rs (diskWrite disk r.filename r.content)
        ((storeRuleFile db depId r.filename ((nh r.filename).getD "")).2)
      (k.1, k.2.1, Ev.writeFile r.filename :: Ev.storeFile r.filename :: k.2.2.1,
        r.filename :: k.2.2.2.1, k.2.2.2.2)
    else (disk, db, [], [], false)

/-- Whether the backup step runs: requested and something to back up
(lines 353, 49 of the spec's Backup Manager contract). -/
def doBackup (a : SetupArgs) (exFiles : List String) : Bool :=
  a.backupExisting && decide (0 < exFiles.length)

/-- The backup directory path chosen for this invocation (lines 354–356),
absent when no backup runs. -/
def backupPathFor (a : SetupArgs) (rulesDir : String) (exFiles : List String) :
    Option String :=
  if doBackup a exFiles then
    some (pathJoin (pathJoin rulesDir "backups")
      ("backup-" ++ sanitizeTs a.timestamp))
  else none

/-- The audit fact recorded after a successful deployment (lines 405–413). -/
def deployFact (db : DB) (a : SetupArgs) (rules : List CursorRule)
    (deployedFiles : List String) : StoredFact :=
  ⟨db.facts.length + 1, "project-setup",
    "Cursor project rules deployed (v" ++ TEMPLATE_VERSION ++ ") - " ++
      toString rules.length ++ " files",
    some ("Deployed by: " ++ a.deployedBy.getD "Unknown" ++
      ", Files: " ++ String.intercalate ", " deployedFiles),
    ["cursor-rules", "deployment", "project-setup", "mdc-format"]⟩

/-- Step 6, the write path (lines 347–456): optional backup (fail-closed), then
`storeRuleDeployment`, then the write loop, then presence verification of every
deployed file, then the `storeFact` audit row. -/
def writePhase (a : SetupArgs) (rulesDir : String) (disk : List DiskFile)
    (db : DB) (exFiles : List String) (rules : List CursorRule)
    (nh : String → Option String) : SetupOutcome :=
  let backupPath := backupPathFor a rulesDir exFiles
  let bk := if doBackup a exFiles then runBackup a disk exFiles else ([], true)
  if !bk.2 then ⟨.error "backup failed", db, disk, bk.1⟩
  else
    let sd := storeRuleDeployment db TEMPLATE_VERSION rules.length a.deployedBy
      backupPath a.timestamp
    let w := runWrites a nh sd.1 rules disk sd.2
    if !w.2.2.2.2 then
      ⟨.error "Failed to write rule file", w.2.1, w.1,
        bk.1 ++ Ev.storeDeployment sd.1 :: w.2.2.1⟩
    else
      let vevs := w.2.2.2.1.map Ev.verifyFile
      if w.2.2.2.1.all (diskHas w.1) then
        ⟨.deployed sd.1 w.2.2.2.1 backupPath,
          (storeFact w.2.1 "project-setup"
            ("Cursor project rules deployed (v" ++ TEMPLATE_VERSION ++ ") - " ++
              toString rules.length ++ " files")
            (some ("Deployed by: " ++ a.deployedBy.getD "Unknown" ++
              ", Files: " ++ String.intercalate ", " w.2.2.2.1))
            ["cursor-rules", "deployment", "project-setup", "mdc-format"]).2,
          w.1, bk.1 ++ Ev.storeDeployment sd.1 :: (w.2.2.1 ++ vevs ++ [Ev.storeFactEv])⟩
      else
        ⟨.error "Rule file missing after write", w.2.1, w.1,
          bk.1 ++ Ev.storeDeployment sd.1 :: (w.2.2.1 ++ vevs)⟩

/-- `setupProjectRules` (lines 214–463): resolve the rules directory, probe
writability, take inventory, query the latest deployment, render the template
set, classify (drift / template change), and decide between no-op, drift
warning and the write path.  The warning's `latestDeployment?.deployedAt ||
"Unknown"` fallbacks are modelled with `Option`: the stored timestamp and
actor strings are never empty, so JavaScript truthiness and option-absence
coincide. -/
def setupProjectRules (a : SetupArgs) (disk : List DiskFile) (db : DB) :
    SetupOutcome :=
  let rulesDir := resolveRulesDir a.workspacePath a.cwd
  if !a.dirWritable then
    ⟨.error "Cannot write to rules directory", db, disk, []⟩
  else
    let exFiles := existingFiles disk
    let latest := getLatestRuleDeployment db
    let latestFiles := getLatestRuleFiles db
    let rules := newRules a.templates a.timestamp
    let nh := newHash a.hash rules
    if decide (0 < exFiles.length) && !a.forceUpdate then
      let hc := hasChanges a.hash disk latestFiles
      let hnt := hasNewTemplate a.hash disk rules
      if !hc && !hnt then ⟨.upToDate, db, disk, []⟩
      else if hc then
        ⟨.driftWarning (modifiedFiles a.hash disk latestFiles)
          (match latest with | some d => d.deployedAt | none => "Unknown")
          (match latest with
            | some d => d.deployedBy.getD "Unknown"
            | none => "Unknown"),
          db, disk, []⟩
      else writePhase a rulesDir disk db exFiles rules nh
    else writePhase a rulesDir disk db exFiles rules nh

/-! ## Derived notions used in the statements -/

/-- The new `rule_files` rows appended by a fully successful write loop:
consecutive ids from `startId + 1`, all referencing `depId`, each carrying the
freshly computed desired hash of its artifact. -/
def mkRows (startId depId : Nat) (nh : String → Option String) :
    List CursorRule → List RuleFile
  | [] => []
  | r :: rs =>
    ⟨startId + 1, depId, r.filename, (nh r.filename).getD ""⟩ ::
      mkRows (startId + 1) depId nh rs

/-- The rules directory after every artifact of `rules` has been written. -/
def writeAll (disk : List DiskFile) (rules : List CursorRule) : List DiskFile :=
  rules.foldl (fun d r => diskWrite d r.filename r.content) disk

/-- The events of a fully successful write loop: per artifact, the file write
immediately followed by its history row. -/
def wEvs : List CursorRule → List Ev
  | [] => []
  | r :: rs => Ev.writeFile r.filename :: Ev.storeFile r.filename :: wEvs rs

/-- The map-entry lookup behind `existingHash` (readable `.mdc` file of that
name). -/
def lookupMdc (disk : List DiskFile) (f : String) : Option DiskFile :=
  ((mdcFiles disk).filter (fun d => d.readable)).find? (fun d => d.name == f)

/-- Whether an event is an artifact write. -/
def isWriteEv : Ev → Bool
  | .writeFile _ => true
  | _ => false

/-- Whether an event is the insertion of a Deployment row. -/
def isStoreDepEv : Ev → Bool
  | .storeDeployment _ => true
  | _ => false

/-- The ordering actually implemented: the trace splits into a first part free
of artifact writes and a second part free of Deployment-row insertions, so
every Deployment-row insertion precedes every artifact write. -/
def depWriteOrdered (tr : List Ev) : Prop :=
  ∃ pre post, tr = pre ++ post ∧ (∀ e ∈ pre, isWriteEv e = false) ∧
    (∀ e ∈ post, isStoreDepEv e = false)

/-- The ordering asserted by the specification's write path: every Deployment
row insertion comes after every artifact write. -/
def histAfterWrites (tr : List Ev) : Prop :=
  ∀ i j : Fin tr.length,
    isStoreDepEv (tr.get i) = true → isWriteEv (tr.get j) = true → j.val < i.val

/-- The `fileCount` invariant of the data model: every Deployment row's
`total_files` equals the number of `rule_files` rows referencing it. -/
def fileCountInv (db : DB) : Prop :=
  ∀ d ∈ db.deployments, (getRuleFiles db d.id).length = d.totalFiles

/-- Store well-formedness: every id in use is at most the number of Deployment
rows (true of every store reachable by the append-only operations). -/
def dbWF (db : DB) : Bool :=
  db.deployments.all (fun d => d.id ≤ db.deployments.length) &&
    db.ruleFiles.all (fun rf => rf.deploymentId ≤ db.deployments.length)

/-- Whether a template's content is free of the `{` character, hence of the
timestamp token (true of all eight shipped templates). -/
def tokenFree (t : CursorRule) : Bool :=
  t.content.data.all (fun c => !(c == '{'))

/-- Whether `ts` is strictly later than every `deployed_at` already recorded —
true of any run whose clock is ahead of all previous runs. -/
def freshTime (db : DB) (ts : String) : Bool :=
  db.deployments.all (fun d => lexLt d.deployedAt.data ts.data)

/-- The fold step of `getLatestRuleDeployment`. -/
def latestStep (best : Option RuleDeployment) (d : RuleDeployment) :
    Option RuleDeployment :=
  match best with
  | none => some d
  | some b => if laterDep b d then some d else some b

/-! ## Concrete scenarios used by witnesses and counterexamples

`hashConst` stands in for the SHA-256 hex digest in concrete runs: like the
real hash it is deterministic, never empty, and collision-free on the test
corpus (it is injective outright). -/

def hashConst : String → String := fun s => "#" ++ s

def tsOne : String := "2024-01-01T10:00:00.000Z"

def tsTwo : String := "2024-01-02T10:00:00.000Z"

def ruleA : CursorRule := ⟨"a.mdc", "alpha-content"⟩

def ruleB : CursorRule := ⟨"b.mdc", "beta-content"⟩

def baseArgs : SetupArgs :=
  { hash := hashConst
    templates := [ruleA, ruleB]
    forceUpdate := false
    backupExisting := true
    deployedBy := some "alice"
    workspacePath := some "/workspace"
    cwd := "/cwd"
    timestamp := tsOne
    dirWritable := true
    writeOk := fun _ => true
    copyOk := fun _ => true }

/-- C2 scenario: the write of `b.mdc` fails part-way through the write loop. -/
def argsHalfWrite : SetupArgs := { baseArgs with writeOk := fun f => !(f == "b.mdc") }

/-- C3 scenario: one template whose rendered content already sits on disk. -/
def argsFresh : SetupArgs := { baseArgs with templates := [⟨"a.mdc", "fresh-content"⟩] }

def diskFresh : List DiskFile := [⟨"a.mdc", "fresh-content", true⟩]

/-- C3 scenario store: the latest deployment recorded a different hash for
`a.mdc` than what now sits on disk (and than the desired hash). -/
def dbFresh : DB :=
  ⟨[], [⟨1, "2.0.0", "2024-01-01 09:00:00", some "alice", 1, none⟩],
    [⟨1, 1, "a.mdc", "#old-content"⟩]⟩

/-- C4 scenario: two Deployment rows sharing one `deployed_at` value. -/
def depTieOne : RuleDeployment :=
  ⟨1, "2.0.0", "2024-01-02 10:00:00", some "alice", 8, none⟩

def depTieTwo : RuleDeployment :=
  ⟨2, "2.0.0", "2024-01-02 10:00:00", some "bob", 8, none⟩

def dbTie : DB := ⟨[], [depTieOne, depTieTwo], [⟨1, 2, "a.mdc", "#x"⟩]⟩

/-- C5/C6 scenario: the single managed file was edited by hand after the
baseline deployment. -/
def argsDrift : SetupArgs :=
  { baseArgs with templates := [⟨"a.mdc", "current-template"⟩] }

def diskDrift : List DiskFile := [⟨"a.mdc", "edited-by-hand", true⟩]

def dbDrift : DB :=
  ⟨[], [⟨1, "2.0.0", "2024-01-01 09:00:00", some "carol", 1, none⟩],
    [⟨1, 1, "a.mdc", "#original-deployed"⟩]⟩

/-- C7 scenario: backup requested, inventory non-empty, every copy fails. -/
def argsNoCopy : SetupArgs :=
  { baseArgs with forceUpdate := true, copyOk := fun _ => false }

def diskOneFile : List DiskFile := [⟨"a.mdc", "handmade", true⟩]

/-- C10 scenario store: the latest deployment recorded both artifacts, but
`a.mdc` has since vanished from disk while `b.mdc` still matches its record. -/
def dbMissing : DB :=
  ⟨[], [⟨1, "2.0.0", "2024-01-01 09:00:00", some "dave", 2, none⟩],
    [⟨1, 1, "a.mdc", "#alpha-content"⟩, ⟨2, 1, "b.mdc", "#beta-content"⟩]⟩

def diskMissing : List DiskFile := [⟨"b.mdc", "beta-content", true⟩]

/-- C5 amended-claim witness scenario: a single-template set. -/
def argsSingle : SetupArgs := { baseArgs with templates := [ruleA] }

/-- Content of `code-style.mdc` from `src/rules-template.ts`, verbatim. -/
def codeStyleContent : String :=
  "---\nname: \"Code Style & Formatting Standards\"\ndescription: \"TypeScript, JavaScript, and React coding style guidelines\"\napplyMode: \"always\"\nfilePatterns: [\"*.ts\", \"*.tsx\", \"*.js\", \"*.jsx\", \"*.vue\", \"*.svelte\"]\n---\n\n# Code Style & Formatting Standards\n\n## General Principles\n- Use consistent indentation (2 spaces for JS/TS/React, 4 spaces for Python)\n- Maximum line length: 100 characters\n- Use meaningful variable and function names that clearly express intent\n- Prefer explicit over implicit code\n- Write self-documenting code with clear naming conventions\n\n## TypeScript/JavaScript\n- Use TypeScript for all new projects\n- Enable strict mode in TypeScript configuration\n- Use interfaces for object shapes, types for unions/primitives\n- Prefer const assertions and readonly where appropriate\n- Use optional chaining (?.) and nullish coalescing (??) operators\n- Import organization: external libraries first, then internal modules\n- Use arrow functions for callbacks and short functions\n- Prefer template literals over string concatenation\n\n## React Specific\n- Use functional components with hooks\n- Custom hooks should start with \'use\' prefix\n- Prefer composition over inheritance\n- Use proper key props in lists\n- Handle loading and error states explicitly\n- Use React.memo() for expensive components\n- Keep components small and focused on single responsibility\n\n## CSS & Styling\n- Use CSS-in-JS or CSS modules for component styling\n- Follow BEM methodology for class naming\n- Use semantic color names and design tokens\n- Prefer flexbox and grid over floats\n- Use relative units (rem, em) over absolute pixels where appropriate\n"

/-- Content of `architecture.mdc` from `src/rules-template.ts`, verbatim. -/
def architectureContent : String :=
  "---\nname: \"Architecture & Patterns\"\ndescription: \"File organization, state management, and architectural patterns\"\napplyMode: \"always\"\nfilePatterns: [\"*.ts\", \"*.tsx\", \"*.js\", \"*.jsx\"]\n---\n\n# Architecture & Patterns\n\n## File Organization\n- Group related files in feature-based directories\n- Use index.ts files for clean exports\n- Separate concerns: components, hooks, utils, types\n- Keep configuration files at project root\n- Use absolute imports with path mapping\n\n## State Management\n- Use React Context for app-wide state\n- Prefer local state (useState/useReducer) when possible\n- Use state management libraries (Redux/Zustand) for complex state\n- Keep state as close to where it\'s used as possible\n- Normalize complex nested state structures\n\n## Error Handling\n- Use proper error boundaries in React\n- Handle async errors with try/catch blocks\n- Provide meaningful error messages to users\n- Log errors for debugging but don\'t expose internals\n- Use custom error classes for different error types\n\n## Component Design\n- Single Responsibility Principle: one component, one purpose\n- Prop drilling should not exceed 2-3 levels\n- Use composition patterns for complex UI\n- Implement proper loading and error states\n- Make components reusable and configurable\n"

/-- Content of `testing.mdc` from `src/rules-template.ts`, verbatim. -/
def testingContent : String :=
  "---\nname: \"Testing Standards\"\ndescription: \"Unit testing, integration testing, and test organization guidelines\"\napplyMode: \"auto-attach\"\nfilePatterns: [\"*.test.ts\", \"*.test.tsx\", \"*.spec.ts\", \"*.spec.tsx\", \"**/__tests__/**\"]\n---\n\n# Testing Standards\n\n## Unit Testing\n- Write tests for all business logic\n- Use descriptive test names that explain the scenario\n- Follow AAA pattern: Arrange, Act, Assert\n- Mock external dependencies\n- Test edge cases and error conditions\n- Maintain at least 80% code coverage\n\n## Integration Testing\n- Test component integration with React Testing Library\n- Test API endpoints with real HTTP calls\n- Use test databases for data layer testing\n- Test user workflows end-to-end\n\n## Test Organization\n- Keep tests close to the code they test\n- Use consistent naming: `component.test.ts`\n- Group related tests with describe blocks\n- Use beforeEach/afterEach for test setup/cleanup\n\n## Testing Best Practices\n- Test behavior, not implementation details\n- Use data-testid for reliable element selection\n- Mock at the boundary (API calls, external services)\n- Write tests that would catch real bugs\n- Keep tests fast and independent\n"

/-- Content of `security.mdc` from `src/rules-template.ts`, verbatim. -/
def securityContent : String :=
  "---\nname: \"Security Guidelines\"\ndescription: \"Input validation, API security, and data protection standards\"\napplyMode: \"auto-attach\"\nfilePatterns: [\"*.ts\", \"*.tsx\", \"*.js\", \"*.jsx\", \"**/api/**\", \"**/auth/**\"]\n---\n\n# Security Guidelines\n\n## Input Validation\n- Validate all user inputs on both client and server\n- Sanitize data before displaying in UI\n- Use parameterized queries for database operations\n- Implement proper authentication and authorization\n- Never store sensitive data in client-side code\n\n## API Security\n- Use HTTPS for all communications\n- Implement rate limiting on API endpoints\n- Validate request bodies and query parameters\n- Use proper CORS configuration\n- Implement proper session management\n- Use JWT tokens with proper expiration\n- Sanitize all inputs to prevent XSS attacks\n\n## Data Protection\n- Encrypt sensitive data at rest and in transit\n- Use environment variables for secrets\n- Implement proper password hashing (bcrypt, scrypt)\n- Follow principle of least privilege\n- Log security events for monitoring\n- Regular security dependency updates\n"

/-- Content of `performance.mdc` from `src/rules-template.ts`, verbatim. -/
def performanceContent : String :=
  "---\nname: \"Performance Standards\"\ndescription: \"Frontend and backend performance optimization guidelines\"\napplyMode: \"auto-attach\"\nfilePatterns: [\"*.ts\", \"*.tsx\", \"*.js\", \"*.jsx\", \"**/api/**\"]\n---\n\n# Performance Standards\n\n## Frontend Performance\n- Use code splitting and lazy loading\n- Optimize images and assets\n- Minimize bundle sizes\n- Use proper caching strategies\n- Implement virtual scrolling for large lists\n- Use React.memo and useMemo for expensive operations\n- Debounce user inputs and API calls\n\n## Backend Performance\n- Use database indexes appropriately\n- Implement caching where beneficial\n- Use pagination for large data sets\n- Optimize database queries\n- Use connection pooling\n- Implement proper logging and monitoring\n- Use compression for API responses\n\n## Monitoring & Metrics\n- Track Core Web Vitals (LCP, FID, CLS)\n- Monitor API response times\n- Set up performance budgets\n- Use performance profiling tools\n- Track bundle size changes\n- Monitor memory usage and leaks\n"

/-- Content of `documentation.mdc` from `src/rules-template.ts`, verbatim. -/
def documentationContent : String :=
  "---\nname: \"Documentation Standards\"\ndescription: \"Code documentation, API docs, and README requirements\"\napplyMode: \"agent-requested\"\nfilePatterns: [\"*.md\", \"*.ts\", \"*.tsx\", \"*.js\", \"*.jsx\"]\n---\n\n# Documentation Standards\n\n## Code Documentation\n- Document complex business logic with comments\n- Use JSDoc for public APIs and functions\n- Include usage examples in documentation\n- Document environment variables and configuration\n- Maintain up-to-date README files\n- Document architectural decisions (ADRs)\n\n## API Documentation\n- Document all API endpoints\n- Include request/response examples\n- Document error codes and messages\n- Use OpenAPI/Swagger specifications\n- Keep documentation current with code changes\n- Include authentication requirements\n\n## README Requirements\n- Clear project description and purpose\n- Installation and setup instructions\n- Usage examples and common workflows\n- Environment variable documentation\n- Contributing guidelines\n- License information\n- Troubleshooting section\n"

/-- Content of `git-workflow.mdc` from `src/rules-template.ts`, verbatim. -/
def gitWorkflowContent : String :=
  "---\nname: \"Git & Version Control\"\ndescription: \"Commit standards, branching strategy, and code review requirements\"\napplyMode: \"manual\"\nfilePatterns: []\n---\n\n# Git & Version Control\n\n## Commit Standards\n- Use conventional commit format: type(scope): description\n- Types: feat, fix, docs, style, refactor, test, chore\n- Keep commits atomic and focused\n- Write clear, descriptive commit messages\n- Reference issue numbers in commits\n\n## Branch Strategy\n- Use feature branches for all development\n- Keep main/master branch always deployable\n- Use descriptive branch names: feature/user-authentication\n- Delete branches after merging\n- Use pull requests for all code changes\n\n## Code Review Requirements\n- All code must be reviewed before merging\n- Check for code style, logic, and security issues\n- Verify tests are included and passing\n- Ensure documentation is updated\n- Use automated checks (linting, testing, security scans)\n\n## Git Best Practices\n- Use .gitignore to exclude build artifacts\n- Keep commits focused on single changes\n- Use interactive rebase to clean up history\n- Write meaningful merge commit messages\n- Tag releases with semantic versioning\n"

/-- Content of `accessibility.mdc` from `src/rules-template.ts`, verbatim. -/
def accessibilityContent : String :=
  "---\nname: \"Accessibility Standards\"\ndescription: \"Web accessibility guidelines and WCAG compliance requirements\"\napplyMode: \"auto-attach\"\nfilePatterns: [\"*.tsx\", \"*.jsx\", \"*.vue\", \"*.svelte\", \"*.html\"]\n---\n\n# Accessibility Standards\n\n## Web Accessibility\n- Use semantic HTML elements\n- Provide alt text for images\n- Ensure proper heading hierarchy (h1-h6)\n- Implement keyboard navigation\n- Maintain color contrast ratios (WCAG 2.1 AA)\n- Use ARIA labels where appropriate\n- Test with screen readers\n\n## Interactive Elements\n- Ensure all interactive elements are keyboard accessible\n- Provide focus indicators for all focusable elements\n- Use proper ARIA roles and properties\n- Implement skip links for navigation\n- Ensure form inputs have associated labels\n\n## Content & Design\n- Use sufficient color contrast (4.5:1 for normal text)\n- Don\'t rely on color alone to convey information\n- Provide text alternatives for non-text content\n- Ensure content is readable and understandable\n- Design for users with various abilities\n\n## Testing & Validation\n- Use automated accessibility testing tools\n- Perform manual keyboard navigation testing\n- Test with screen readers (NVDA, JAWS, VoiceOver)\n- Validate HTML for semantic correctness\n- Include accessibility testing in CI/CD pipeline\n"

/-- `CURSOR_RULES_TEMPLATES` from `src/rules-template.ts`: the eight shipped
rule artifacts with their verbatim contents. -/
def CURSOR_RULES_TEMPLATES : List CursorRule := [
  ⟨"code-style.mdc", codeStyleContent⟩,
  ⟨"architecture.mdc", architectureContent⟩,
  ⟨"testing.mdc", testingContent⟩,
  ⟨"security.mdc", securityContent⟩,
  ⟨"performance.mdc", performanceContent⟩,
  ⟨"documentation.mdc", documentationContent⟩,
  ⟨"git-workflow.mdc", gitWorkflowContent⟩,
  ⟨"accessibility.mdc", accessibilityContent⟩]

/-- The engine invoked on the shipped template set. -/
def argsReal : SetupArgs := { baseArgs with templates := CURSOR_RULES_TEMPLATES }

/-! ## Order lemmas for the latest-deployment query -/

theorem lexLt_irrefl : ∀ l : List Char, lexLt l l = false
  | [] => rfl
  | c :: cs => by simp [lexLt, lexLt_irrefl cs]

theorem lexLt_trans : ∀ {a b c : List Char},
    lexLt a b = true → lexLt b c = true → lexLt a c = true
  | [], [], _, h1, _ => by simp [lexLt] at h1
  | [], _ :: _, [], _, h2 => by simp [lexLt] at h2
  | [], _ :: _, _ :: _, _, _ => rfl
  | _ :: _, [], _, h1, _ => by simp [lexLt] at h1
  | _ :: _, _ :: _, [], _, h2 => by simp [lexLt] at h2
  | x :: xs, y :: ys, z :: zs, h1, h2 => by
    simp only [lexLt] at h1 h2 ⊢
    by_cases hxy : x = y
    · subst hxy
      rw [if_pos rfl] at h1
      by_cases hxz : x = z
      · subst hxz
        rw [if_pos rfl] at h2
        rw [if_pos rfl]
        exact lexLt_trans h1 h2
      · rw [if_neg hxz] at h2
        rw [if_neg hxz]
        exact h2
    · rw [if_neg hxy] at h1
      have hx : x < y := of_decide_eq_true h1
      by_cases hyz : y = z
      · subst hyz
        rw [if_neg hxy]
        exact h1
      · rw [if_neg hyz] at h2
        have hy : y < z := of_decide_eq_true h2
        have hxz : x < z := lt_trans hx hy
        rw [if_neg (ne_of_lt hxz)]
        exact decide_eq_true hxz

theorem laterDep_irrefl (d : RuleDeployment) : laterDep d d = false := by
  simp [laterDep, lexLt_irrefl]

theorem laterDep_trans {a b c : RuleDeployment} (h1 : laterDep a b = true)
    (h2 : laterDep b c = true) : laterDep a c = true := by
  simp only [laterDep, Bool.or_eq_true, Bool.and_eq_true, beq_iff_eq,
    decide_eq_true_eq] at h1 h2 ⊢
  rcases h1 with h1 | ⟨h1e, h1i⟩
  · rcases h2 with h2 | ⟨h2e, h2i⟩
    · exact Or.inl (lexLt_trans h1 h2)
    · exact Or.inl (by rw [← h2e]; exact h1)
  · rcases h2 with h2 | ⟨h2e, h2i⟩
    · exact Or.inl (by rw [h1e]; exact h2)
    · exact Or.inr ⟨h1e.trans h2e, Nat.lt_trans h1i h2i⟩

theorem laterDep_asymm {a b : RuleDeployment} (h : laterDep a b = true) :
    laterDep b a = false := by
  by_contra hc
  have hba : laterDep b a = true := by
    cases hx : laterDep b a with
    | true => rfl
    | false => exact absurd hx hc
  have := laterDep_trans h hba
  rw [laterDep_irrefl] at this
  exact Bool.false_ne_true this

theorem getLatestRuleDeployment_eq_foldl (db : DB) :
    getLatestRuleDeployment db = db.deployments.foldl latestStep none := rfl

theorem not_eq_true_eq_false {b : Bool} (h : ¬b = true) : b = false := by
  cases b with
  | true => exact absurd rfl h
  | false => rfl

theorem foldl_latestStep_spec :
    ∀ (l : List RuleDeployment) (acc : Option RuleDeployment)
      (d : RuleDeployment), l.foldl latestStep acc = some d →
      (acc = some d ∨ d ∈ l) ∧ (∀ e ∈ l, laterDep d e = false) ∧
        (∀ b, acc = some b → (d = b ∨ laterDep b d = true))
  | [], acc, d, h => by
    rw [List.foldl_nil] at h
    refine ⟨Or.inl h, by simp, ?_⟩
    intro b hb
    rw [hb] at h
    exact Or.inl (Option.some.inj h).symm
  | x :: xs, acc, d, h => by
    rw [List.foldl_cons] at h
    obtain ⟨hA, hB, hC⟩ := foldl_latestStep_spec xs (latestStep acc x) d h
    cases acc with
    | none =>
      have hax : latestStep none x = some x := rfl
      have hCx : d = x ∨ laterDep x d = true := hC x hax
      refine ⟨?_, ?_, ?_⟩
      · rcases hA with hA | hA
        · exact Or.inr ((Option.some.inj hA).symm ▸ List.mem_cons_self x xs)
        · exact Or.inr (List.mem_cons_of_mem x hA)
      · intro e he
        rcases List.mem_cons.mp he with he | he
        · subst he
          rcases hCx with h1 | h1
          · exact h1 ▸ laterDep_irrefl d
          · exact laterDep_asymm h1
        · exact hB e he
      · intro b hb
        exact absurd hb (by simp)
    | some b0 =>
      by_cases hbx : laterDep b0 x = true
      · have hax : latestStep (some b0) x = some x := by
          simp only [latestStep, if_pos hbx]
        rw [hax] at hA hC
        have hCx : d = x ∨ laterDep x d = true := hC x rfl
        refine ⟨?_, ?_, ?_⟩
        · rcases hA with hA | hA
          · exact Or.inr ((Option.some.inj hA).symm ▸ List.mem_cons_self x xs)
          · exact Or.inr (List.mem_cons_of_mem x hA)
        · intro e he
          rcases List.mem_cons.mp he with he | he
          · subst he
            rcases hCx with h1 | h1
            · exact h1 ▸ laterDep_irrefl d
            · exact laterDep_asymm h1
          · exact hB e he
        · intro b hb
          have hbb : b = b0 := (Option.some.inj hb).symm
          subst hbb
          rcases hCx with h1 | h1
          · exact Or.inr (h1 ▸ hbx)
          · exact Or.inr (laterDep_trans hbx h1)
      · have hbxf : laterDep b0 x = false := not_eq_true_eq_false hbx
        have hax : latestStep (some b0) x = some b0 := by
          simp only [latestStep, if_neg hbx]
        rw [hax] at hA hC
        have hCb : d = b0 ∨ laterDep b0 d = true := hC b0 rfl
        refine ⟨?_, ?_, ?_⟩
        · rcases hA with hA | hA
          · exact Or.inl hA
          · exact Or.inr (List.mem_cons_of_mem x hA)
        · intro e he
          rcases List.mem_cons.mp he with he | he
          · subst he
            rcases hCb with h1 | h1
            · exact h1 ▸ hbxf
            · by_contra hbad
              have hdx : laterDep d e = true := by
                cases hdx' : laterDep d e with
                | true => rfl
                | false => exact absurd hdx' hbad
              have := laterDep_trans h1 hdx
              rw [hbxf] at this
              exact Bool.false_ne_true this
          · exact hB e he
        · intro b hb
          have hbb : b = b0 := (Option.some.inj hb).symm
          subst hbb
          exact hCb

theorem laterDep_false_parts {a b : RuleDeployment} (h : laterDep a b = false) :
    lexLt a.deployedAt.data b.deployedAt.data = false ∧
      (b.deployedAt = a.deployedAt → b.id ≤ a.id) := by
  simp only [laterDep, Bool.or_eq_false_iff] at h
  obtain ⟨h1, h2⟩ := h
  refine ⟨h1, fun hEq => ?_⟩
  have hbeq : (a.deployedAt == b.deployedAt) = true := beq_iff_eq.mpr hEq.symm
  rw [hbeq, Bool.true_and] at h2
  exact Nat.not_lt.mp (of_decide_eq_false h2)

/-- C4: `getLatestRuleDeployment` returns the Deployment row with the maximum
`deployedAt` timestamp, ties broken by maximum id; the rows returned by
`getLatestRuleFiles` — which carry the "latest deployed hash" of each file —
are exactly the `rule_files` rows referencing that deployment, and the latest
deployed hash of a file is the `contentHash` recorded for it there, absent when
the file was not part of that deployment. -/
theorem C4_latest_deployment (db : DB) (d : RuleDeployment)
    (h : getLatestRuleDeployment db = some d) :
    d ∈ db.deployments ∧
      (∀ e ∈ db.deployments,
        lexLt d.deployedAt.data e.deployedAt.data = false ∧
          (e.deployedAt = d.deployedAt → e.id ≤ d.id)) ∧
      (∀ rf : RuleFile,
        rf ∈ getLatestRuleFiles db ↔ rf ∈ db.ruleFiles ∧ rf.deploymentId = d.id) ∧
      (∀ f hsh, latestDeployedHash db f = some hsh →
        ∃ rf ∈ db.ruleFiles,
          rf.deploymentId = d.id ∧ rf.filename = f ∧ rf.contentHash = hsh) ∧
      (∀ f, latestDeployedHash db f = none ↔
        ∀ rf ∈ db.ruleFiles, rf.deploymentId = d.id → rf.filename ≠ f) := by
  obtain ⟨hA, hB, _⟩ := foldl_latestStep_spec db.deployments none d h
  have hmem : d ∈ db.deployments := by
    rcases hA with hA | hA
    · exact absurd hA (by simp)
    · exact hA
  have hfiles : getLatestRuleFiles db = getRuleFiles db d.id := by
    simp [getLatestRuleFiles, h]
  refine ⟨hmem, ?_, ?_, ?_, ?_⟩
  · intro e he
    exact laterDep_false_parts (hB e he)
  · intro rf
    rw [hfiles]
    simp [getRuleFiles, List.mem_filter]
  · intro f hsh hfind
    simp only [latestDeployedHash, hfiles, Option.map_eq_some'] at hfind
    obtain ⟨rf, hrf, hch⟩ := hfind
    have hmemf := List.mem_of_find?_eq_some hrf
    have hname := List.find?_some hrf
    simp only [getRuleFiles, List.mem_filter, beq_iff_eq] at hmemf
    exact ⟨rf, hmemf.1, hmemf.2, beq_iff_eq.mp hname, hch⟩
  · intro f
    simp only [latestDeployedHash, hfiles, Option.map_eq_none']
    rw [List.find?_eq_none]
    constructor
    · intro hnone rf hrf hdep hbad
      exact hnone rf (by simp [getRuleFiles, List.mem_filter, hrf, hdep])
        (by simp [hbad])
    · intro hall rf hrf hbeq
      have hm : rf ∈ db.ruleFiles ∧ rf.deploymentId = d.id := by
        simpa [getRuleFiles, List.mem_filter] using hrf
      exact hall rf hm.1 hm.2 (beq_iff_eq.mp hbeq)

theorem C4_witness :
    depTieTwo ∈ dbTie.deployments ∧
      (∀ e ∈ dbTie.deployments,
        lexLt depTieTwo.deployedAt.data e.deployedAt.data = false ∧
          (e.deployedAt = depTieTwo.deployedAt → e.id ≤ depTieTwo.id)) ∧
      (∀ rf : RuleFile,
        rf ∈ getLatestRuleFiles dbTie ↔
          rf ∈ dbTie.ruleFiles ∧ rf.deploymentId = depTieTwo.id) ∧
      (∀ f hsh, latestDeployedHash dbTie f = some hsh →
        ∃ rf ∈ dbTie.ruleFiles,
          rf.deploymentId = depTieTwo.id ∧ rf.filename = f ∧
            rf.contentHash = hsh) ∧
      (∀ f, latestDeployedHash dbTie f = none ↔
        ∀ rf ∈ dbTie.ruleFiles, rf.deploymentId = depTieTwo.id →
          rf.filename ≠ f) :=
  C4_latest_deployment dbTie depTieTwo (by decide)

/-! ## Write-path lemmas -/

theorem runBackup_ok (a : SetupArgs) (disk : List DiskFile) :
    ∀ fs : List String, (runBackup a disk fs).2 = fs.all (copyOkFor a disk)
  | [] => rfl
  | f :: fs => by
    simp only [runBackup, List.all_cons]
    by_cases h : copyOkFor a disk f = true
    · rw [if_pos h, h, Bool.true_and]
      exact runBackup_ok a disk fs
    · rw [if_neg h, not_eq_true_eq_false h, Bool.false_and]

theorem runBackup_evs (a : SetupArgs) (disk : List DiskFile) :
    ∀ fs : List String, ∀ e ∈ (runBackup a disk fs).1,
      isWriteEv e = false ∧ isStoreDepEv e = false
  | [] => by simp [runBackup]
  | f :: fs => by
    simp only [runBackup]
    by_cases h : copyOkFor a disk f = true
    · rw [if_pos h]
      intro e he
      rcases List.mem_cons.mp he with he | he
      · subst he; exact ⟨rfl, rfl⟩
      · exact runBackup_evs a disk fs e he
    · rw [if_neg h]
      intro e he
      exact absurd he (List.not_mem_nil e)

theorem runWrites_frame (a : SetupArgs) (nh : String → Option String)
    (depId : Nat) :
    ∀ (rules : List CursorRule) (disk : List DiskFile) (db : DB),
      ((runWrites a nh depId rules disk db).2.1).deployments = db.deployments ∧
        ((runWrites a nh depId rules disk db).2.1).facts = db.facts
  | [], disk, db => ⟨rfl, rfl⟩
  | r :: rs, disk, db => by
    simp only [runWrites]
    by_cases h : a.writeOk r.filename = true
    · rw [if_pos h]
      exact runWrites_frame a nh depId rs _ _
    · rw [if_neg h]
      exact ⟨rfl, rfl⟩

theorem runWrites_evs (a : SetupArgs) (nh : String → Option String)
    (depId : Nat) :
    ∀ (rules : List CursorRule) (disk : List DiskFile) (db : DB),
      ∀ e ∈ (runWrites a nh depId rules disk db).2.2.1, isStoreDepEv e = false
  | [], disk, db => by simp [runWrites]
  | r :: rs, disk, db => by
    simp only [runWrites]
    by_cases h : a.writeOk r.filename = true
    · rw [if_pos h]
      intro e he
      rcases List.mem_cons.mp he with he | he
      · subst he; rfl
      · rcases List.mem_cons.mp he with he | he
        · subst he; rfl
        · exact runWrites_evs a nh depId rs _ _ e he
    · rw [if_neg h]
      intro e he
      exact absurd he (List.not_mem_nil e)

theorem runWrites_ok_shape (a : SetupArgs) (nh : String → Option String)
    (depId : Nat) :
    ∀ (rules : List CursorRule) (disk : List DiskFile) (db : DB),
      (runWrites a nh depId rules disk db).2.2.2.2 = true →
      runWrites a nh depId rules disk db =
        (writeAll disk rules,
          { db with ruleFiles :=
              db.ruleFiles ++ mkRows db.ruleFiles.length depId nh rules },
          wEvs rules, rules.map (fun r => r.filename), true)
  | [], disk, db => by
    intro _
    simp [runWrites, writeAll, mkRows, wEvs]
  | r :: rs, disk, db => by
    intro hok
    simp only [runWrites] at hok ⊢
    by_cases h : a.writeOk r.filename = true
    · rw [if_pos h] at hok ⊢
      have hrec := runWrites_ok_shape a nh depId rs
        (diskWrite disk r.filename r.content)
        ((storeRuleFile db depId r.filename ((nh r.filename).getD "")).2) hok
      rw [hrec]
      simp only [storeRuleFile, writeAll, List.foldl_cons, mkRows, wEvs,
        List.map_cons, List.length_append, List.length_cons, List.length_nil,
        List.append_assoc, List.cons_append, List.nil_append]
    · rw [if_neg h] at hok
      exact absurd hok (by simp)

theorem diskHas_diskWrite_self (n c : String) :
    ∀ d : List DiskFile, diskHas (diskWrite d n c) n = true
  | [] => by simp [diskWrite, diskHas]
  | e :: es => by
    simp only [diskWrite]
    by_cases h : e.name == n
    · rw [if_pos h]
      simp [diskHas]
    · rw [if_neg h]
      have hrec := diskHas_diskWrite_self n c es
      simp only [diskHas] at hrec ⊢
      simp [hrec]

theorem diskHas_diskWrite_mono (n c f : String) :
    ∀ d : List DiskFile, diskHas d f = true → diskHas (diskWrite d n c) f = true
  | [] => by simp [diskHas]
  | e :: es => by
    intro hf
    simp only [diskHas, List.any_cons, Bool.or_eq_true] at hf
    simp only [diskWrite]
    by_cases h : e.name == n
    · rw [if_pos h]
      rcases hf with hf | hf
      · simp only [diskHas, List.any_cons, Bool.or_eq_true]
        exact Or.inl (by rw [← beq_iff_eq.mp h]; exact hf)
      · simp only [diskHas, List.any_cons, Bool.or_eq_true]
        exact Or.inr hf
    · rw [if_neg h]
      simp only [diskHas, List.any_cons, Bool.or_eq_true]
      rcases hf with hf | hf
      · exact Or.inl hf
      · exact Or.inr (diskHas_diskWrite_mono n c f es hf)

theorem diskHas_writeAll_mono (f : String) :
    ∀ (rules : List CursorRule) (disk : List DiskFile),
      diskHas disk f = true → diskHas (writeAll disk rules) f = true
  | [], _ => fun h => h
  | r :: rs, disk => fun h =>
    diskHas_writeAll_mono f rs (diskWrite disk r.filename r.content)
      (diskHas_diskWrite_mono r.filename r.content f disk h)

theorem diskHas_writeAll_of_mem (t : CursorRule) :
    ∀ (rules : List CursorRule) (disk : List DiskFile), t ∈ rules →
      diskHas (writeAll disk rules) t.filename = true
  | [], _ => fun h => absurd h (List.not_mem_nil t)
  | r :: rs, disk => fun h => by
    rcases List.mem_cons.mp h with h | h
    · subst h
      exact diskHas_writeAll_mono t.filename rs _
        (diskHas_diskWrite_self t.filename t.content disk)
    · exact diskHas_writeAll_of_mem t rs _ h

theorem verify_all_pass (rules : List CursorRule) (disk : List DiskFile) :
    (rules.map (fun r => r.filename)).all (diskHas (writeAll disk rules)) = true := by
  rw [List.all_eq_true]
  intro f hf
  rcases List.mem_map.mp hf with ⟨t, ht, hft⟩
  subst hft
  exact diskHas_writeAll_of_mem t rules disk ht

/-! ## Shape of the write phase -/

theorem writePhase_backup_fail (a : SetupArgs) (rulesDir : String)
    (disk : List DiskFile) (db : DB) (exFiles : List String)
    (rules : List CursorRule) (nh : String → Option String)
    (hdb : doBackup a exFiles = true)
    (hb : (runBackup a disk exFiles).2 = false) :
    writePhase a rulesDir disk db exFiles rules nh =
      ⟨.error "backup failed", db, disk, (runBackup a disk exFiles).1⟩ := by
  simp [writePhase, hdb, hb]

theorem writePhase_success (a : SetupArgs) (rulesDir : String)
    (disk : List DiskFile) (db : DB) (exFiles : List String)
    (rules : List CursorRule) (nh : String → Option String)
    (hb : doBackup a exFiles = true → (runBackup a disk exFiles).2 = true)
    (hw : (runWrites a nh (db.deployments.length + 1) rules disk
      { db with deployments := db.deployments ++
          [⟨db.deployments.length + 1, TEMPLATE_VERSION, a.timestamp,
            a.deployedBy, rules.length, backupPathFor a rulesDir exFiles⟩] }
      ).2.2.2.2 = true) :
    writePhase a rulesDir disk db exFiles rules nh =
      ⟨.deployed (db.deployments.length + 1) (rules.map (fun r => r.filename))
          (backupPathFor a rulesDir exFiles),
        { db with
            deployments := db.deployments ++
              [⟨db.deployments.length + 1, TEMPLATE_VERSION, a.timestamp,
                a.deployedBy, rules.length, backupPathFor a rulesDir exFiles⟩],
            ruleFiles := db.ruleFiles ++
              mkRows db.ruleFiles.length (db.deployments.length + 1) nh rules,
            facts := db.facts ++
              [deployFact db a rules (rules.map (fun r => r.filename))] },
        writeAll disk rules,
        (if doBackup a exFiles then runBackup a disk exFiles else ([], true)).1 ++
          Ev.storeDeployment (db.deployments.length + 1) ::
            (wEvs rules ++ (rules.map (fun r => r.filename)).map Ev.verifyFile ++
              [Ev.storeFactEv])⟩ := by
  have hbk : (if doBackup a exFiles then runBackup a disk exFiles
      else ([], true)).2 = true := by
    by_cases hdb : doBackup a exFiles = true
    · rw [if_pos hdb]; exact hb hdb
    · rw [if_neg hdb]
  have hsd : storeRuleDeployment db TEMPLATE_VERSION rules.length a.deployedBy
      (backupPathFor a rulesDir exFiles) a.timestamp =
      (db.deployments.length + 1,
        { db with deployments := db.deployments ++
          [⟨db.deployments.length + 1, TEMPLATE_VERSION, a.timestamp,
            a.deployedBy, rules.length, backupPathFor a rulesDir exFiles⟩] }) := rfl
  have hws := runWrites_ok_shape a nh (db.deployments.length + 1) rules disk
    { db with deployments := db.deployments ++
        [⟨db.deployments.length + 1, TEMPLATE_VERSION, a.timestamp,
          a.deployedBy, rules.length, backupPathFor a rulesDir exFiles⟩] } hw
  simp only [writePhase, hsd, hws, hbk, Bool.not_true, Bool.false_eq_true,
    if_false, verify_all_pass rules disk, if_true]
  simp [storeFact, deployFact]

/-- Any write-phase outcome whose result is `deployed` has the successful
shape: in particular `bk.2` and the write loop's ok flag were true. -/
theorem writePhase_deployed_shape (a : SetupArgs) (rulesDir : String)
    (disk : List DiskFile) (db : DB) (exFiles : List String)
    (rules : List CursorRule) (nh : String → Option String)
    (id0 : Nat) (files : List String) (bp : Option String)
    (h : (writePhase a rulesDir disk db exFiles rules nh).result =
      .deployed id0 files bp) :
    (doBackup a exFiles = true → (runBackup a disk exFiles).2 = true) ∧
      (runWrites a nh (db.deployments.length + 1) rules disk
        { db with deployments := db.deployments ++
            [⟨db.deployments.length + 1, TEMPLATE_VERSION, a.timestamp,
              a.deployedBy, rules.length, backupPathFor a rulesDir exFiles⟩] }
        ).2.2.2.2 = true := by
  by_cases hbk : (if doBackup a exFiles then runBackup a disk exFiles
      else ([], true)).2 = true
  · have h1 : doBackup a exFiles = true → (runBackup a disk exFiles).2 = true := by
      intro hdb
      rw [if_pos hdb] at hbk
      exact hbk
    refine ⟨h1, ?_⟩
    by_cases hw : (runWrites a nh (db.deployments.length + 1) rules disk
        { db with deployments := db.deployments ++
            [⟨db.deployments.length + 1, TEMPLATE_VERSION, a.timestamp,
              a.deployedBy, rules.length, backupPathFor a rulesDir exFiles⟩] }
        ).2.2.2.2 = true
    · exact hw
    · exfalso
      have hwf := not_eq_true_eq_false hw
      have hsd : storeRuleDeployment db TEMPLATE_VERSION rules.length
          a.deployedBy (backupPathFor a rulesDir exFiles) a.timestamp =
          (db.deployments.length + 1,
            { db with deployments := db.deployments ++
              [⟨db.deployments.length + 1, TEMPLATE_VERSION, a.timestamp,
                a.deployedBy, rules.length, backupPathFor a rulesDir exFiles⟩] }) := rfl
      simp only [writePhase, hsd, hbk, hwf, Bool.not_true, Bool.not_false,
        Bool.false_eq_true, if_false, if_true] at h
      exact SetupResult.noConfusion h
  · exfalso
    have hbf := not_eq_true_eq_false hbk
    simp only [writePhase, hbf, Bool.not_false, if_true] at h
    exact SetupResult.noConfusion h

/-! ## Branch evaluation of the decision step -/

theorem setup_not_writable (a : SetupArgs) (disk : List DiskFile) (db : DB)
    (h : a.dirWritable = false) :
    setupProjectRules a disk db =
      ⟨.error "Cannot write to rules directory", db, disk, []⟩ := by
  simp [setupProjectRules, h]

theorem setup_upToDate_eval (a : SetupArgs) (disk : List DiskFile) (db : DB)
    (h1 : a.dirWritable = true) (h2 : 0 < (existingFiles disk).length)
    (h3 : a.forceUpdate = false)
    (h4 : hasChanges a.hash disk (getLatestRuleFiles db) = false)
    (h5 : hasNewTemplate a.hash disk (newRules a.templates a.timestamp) = false) :
    setupProjectRules a disk db = ⟨.upToDate, db, disk, []⟩ := by
  simp [setupProjectRules, h1, h2, h3, h4, h5]

theorem setup_drift_eval (a : SetupArgs) (disk : List DiskFile) (db : DB)
    (h1 : a.dirWritable = true) (h2 : 0 < (existingFiles disk).length)
    (h3 : a.forceUpdate = false)
    (h4 : hasChanges a.hash disk (getLatestRuleFiles db) = true) :
    setupProjectRules a disk db =
      ⟨.driftWarning (modifiedFiles a.hash disk (getLatestRuleFiles db))
        (match getLatestRuleDeployment db with
          | some d => d.deployedAt
          | none => "Unknown")
        (match getLatestRuleDeployment db with
          | some d => d.deployedBy.getD "Unknown"
          | none => "Unknown"),
        db, disk, []⟩ := by
  simp [setupProjectRules, h1, h2, h3, h4]

theorem setup_write_of_tmpl (a : SetupArgs) (disk : List DiskFile) (db : DB)
    (h1 : a.dirWritable = true) (h3 : a.forceUpdate = false)
    (h4 : hasChanges a.hash disk (getLatestRuleFiles db) = false)
    (h5 : hasNewTemplate a.hash disk (newRules a.templates a.timestamp) = true) :
    setupProjectRules a disk db =
      writePhase a (resolveRulesDir a.workspacePath a.cwd) disk db
        (existingFiles disk) (newRules a.templates a.timestamp)
        (newHash a.hash (newRules a.templates a.timestamp)) := by
  by_cases h2 : 0 < (existingFiles disk).length
  · simp [setupProjectRules, h1, h2, h3, h4, h5]
  · simp [setupProjectRules, h1, h2, h3]

theorem setup_write_of_force (a : SetupArgs) (disk : List DiskFile) (db : DB)
    (h1 : a.dirWritable = true) (h3 : a.forceUpdate = true) :
    setupProjectRules a disk db =
      writePhase a (resolveRulesDir a.workspacePath a.cwd) disk db
        (existingFiles disk) (newRules a.templates a.timestamp)
        (newHash a.hash (newRules a.templates a.timestamp)) := by
  simp [setupProjectRules, h1, h3]

theorem setup_write_of_empty (a : SetupArgs) (disk : List DiskFile) (db : DB)
    (h1 : a.dirWritable = true) (h2 : (existingFiles disk).length = 0) :
    setupProjectRules a disk db =
      writePhase a (resolveRulesDir a.workspacePath a.cwd) disk db
        (existingFiles disk) (newRules a.templates a.timestamp)
        (newHash a.hash (newRules a.templates a.timestamp)) := by
  simp [setupProjectRules, h1, h2]

/-- Every invocation either leaves the store and directory untouched (error,
no-op or warning) or hands over to the write phase. -/
theorem setup_cases (a : SetupArgs) (disk : List DiskFile) (db : DB) :
    (∃ r, setupProjectRules a disk db = ⟨r, db, disk, []⟩ ∧
      ∀ id0 files bp, r ≠ .deployed id0 files bp) ∨
    setupProjectRules a disk db =
      writePhase a (resolveRulesDir a.workspacePath a.cwd) disk db
        (existingFiles disk) (newRules a.templates a.timestamp)
        (newHash a.hash (newRules a.templates a.timestamp)) := by
  by_cases h1 : a.dirWritable = true
  · by_cases h3 : a.forceUpdate = true
    · exact Or.inr (setup_write_of_force a disk db h1 h3)
    · have h3f := not_eq_true_eq_false h3
      by_cases h2 : 0 < (existingFiles disk).length
      · by_cases h4 : hasChanges a.hash disk (getLatestRuleFiles db) = true
        · refine Or.inl ⟨_, setup_drift_eval a disk db h1 h2 h3f h4, ?_⟩
          intro id0 files bp hne
          exact SetupResult.noConfusion hne
        · have h4f := not_eq_true_eq_false h4
          by_cases h5 : hasNewTemplate a.hash disk
              (newRules a.templates a.timestamp) = true
          · exact Or.inr (setup_write_of_tmpl a disk db h1 h3f h4f h5)
          · have h5f := not_eq_true_eq_false h5
            refine Or.inl ⟨_, setup_upToDate_eval a disk db h1 h2 h3f h4f h5f, ?_⟩
            intro id0 files bp hne
            exact SetupResult.noConfusion hne
      · have h2z : (existingFiles disk).length = 0 := by omega
        exact Or.inr (setup_write_of_empty a disk db h1 h2z)
  · refine Or.inl ⟨_, setup_not_writable a disk db (not_eq_true_eq_false h1), ?_⟩
    intro id0 files bp hne
    exact SetupResult.noConfusion hne

/-! ## Small facts about the appended rows and events -/

theorem mkRows_length (depId : Nat) (nh : String → Option String) :
    ∀ (rules : List CursorRule) (startId : Nat),
      (mkRows startId depId nh rules).length = rules.length
  | [], _ => rfl
  | _ :: rs, startId => by
    simp [mkRows, mkRows_length depId nh rs (startId + 1)]

theorem mkRows_depId (depId : Nat) (nh : String → Option String) :
    ∀ (rules : List CursorRule) (startId : Nat),
      ∀ rf ∈ mkRows startId depId nh rules, rf.deploymentId = depId
  | [], _ => by simp [mkRows]
  | r :: rs, startId => by
    intro rf hrf
    rcases List.mem_cons.mp hrf with h | h
    · subst h; rfl
    · exact mkRows_depId depId nh rs (startId + 1) rf h

theorem wEvs_kinds : ∀ (rules : List CursorRule), ∀ e ∈ wEvs rules,
    isStoreDepEv e = false ∧ ∀ f, e ≠ Ev.backupCopy f
  | [] => by simp [wEvs]
  | r :: rs => by
    intro e he
    rcases List.mem_cons.mp he with h | h
    · subst h; exact ⟨rfl, fun f => Ev.noConfusion⟩
    · rcases List.mem_cons.mp h with h | h
      · subst h; exact ⟨rfl, fun f => Ev.noConfusion⟩
      · exact wEvs_kinds rs e h

theorem runWrites_evs_not_backup (a : SetupArgs) (nh : String → Option String)
    (depId : Nat) :
    ∀ (rules : List CursorRule) (disk : List DiskFile) (db : DB),
      ∀ e ∈ (runWrites a nh depId rules disk db).2.2.1, ∀ f, e ≠ Ev.backupCopy f
  | [], disk, db => by simp [runWrites]
  | r :: rs, disk, db => by
    simp only [runWrites]
    by_cases h : a.writeOk r.filename = true
    · rw [if_pos h]
      intro e he
      rcases List.mem_cons.mp he with he | he
      · subst he; exact fun f => Ev.noConfusion
      · rcases List.mem_cons.mp he with he | he
        · subst he; exact fun f => Ev.noConfusion
        · exact runWrites_evs_not_backup a nh depId rs _ _ e he
    · rw [if_neg h]
      intro e he
      exact absurd he (List.not_mem_nil e)

theorem runWrites_ok_of_all (a : SetupArgs) (nh : String → Option String)
    (depId : Nat) :
    ∀ (rules : List CursorRule) (disk : List DiskFile) (db : DB),
      (∀ r ∈ rules, a.writeOk r.filename = true) →
      (runWrites a nh depId rules disk db).2.2.2.2 = true
  | [], _, _ => fun _ => rfl
  | r :: rs, disk, db => fun hall => by
    simp only [runWrites]
    rw [if_pos (hall r (List.mem_cons_self r rs))]
    exact runWrites_ok_of_all a nh depId rs _ _
      (fun x hx => hall x (List.mem_cons_of_mem r hx))

theorem hasChanges_true_of (hash : String → String) (disk : List DiskFile)
    (latestFiles : List RuleFile) (rf : RuleFile) (h0 : String)
    (hrf : rf ∈ latestFiles)
    (hex : existingHash hash disk rf.filename = some h0)
    (hne : h0 ≠ "") (hdiff : h0 ≠ rf.contentHash) :
    hasChanges hash disk latestFiles = true := by
  rw [hasChanges, List.any_eq_true]
  refine ⟨rf, hrf, ?_⟩
  rw [hex]
  simp [hne, hdiff]

theorem modifiedFiles_mem (hash : String → String) (disk : List DiskFile)
    (latestFiles : List RuleFile) (rf : RuleFile) (h0 : String)
    (hrf : rf ∈ latestFiles)
    (hex : existingHash hash disk rf.filename = some h0)
    (hne : h0 ≠ "") (hdiff : h0 ≠ rf.contentHash) :
    rf.filename ∈ modifiedFiles hash disk latestFiles := by
  rw [modifiedFiles]
  refine List.mem_map.mpr ⟨rf, List.mem_filter.mpr ⟨hrf, ?_⟩, rfl⟩
  rw [hex]
  simp [hne, hdiff]

theorem hasNewTemplate_of_absent (hash : String → String) (disk : List DiskFile)
    (rules : List CursorRule) (r : CursorRule) (hr : r ∈ rules)
    (habs : existingHash hash disk r.filename = none) :
    hasNewTemplate hash disk rules = true := by
  rw [hasNewTemplate, List.any_eq_true]
  refine ⟨r, hr, ?_⟩
  rw [habs]

/-! ## C1 — order of history recording and artifact writes -/

/-- C1 counterexample: on a first run over an empty directory, the trace of the
reference engine inserts the Deployment row before any artifact write, so the
claimed "history only after all files are on disk" ordering fails at this
concrete input. -/
theorem C1_counterexample :
    ¬ histAfterWrites (setupProjectRules baseArgs [] DB.empty).trace := by
  intro hord
  have h01 := hord ⟨0, by decide⟩ ⟨1, by decide⟩ (by decide) (by decide)
  exact absurd h01 (by decide)

/-- C1 (amended): in the write path the Deployment row is inserted before any
artifact is written — not after — and each artifact's write is immediately
followed by its `rule_files` row carrying the freshly computed desired hash:
on a deployed outcome the appended rows are exactly `mkRows` over the rendered
template set, referencing the new Deployment row's id, and the effect trace is
exactly backup copies, then the Deployment row, then per-artifact write and
row, then the presence verifications, then the audit fact. -/
theorem C1_amended (a : SetupArgs) (disk : List DiskFile) (db : DB)
    (id0 : Nat) (files : List String) (bp : Option String)
    (h : (setupProjectRules a disk db).result = .deployed id0 files bp) :
    depWriteOrdered (setupProjectRules a disk db).trace ∧
      (setupProjectRules a disk db).db.ruleFiles =
        db.ruleFiles ++ mkRows db.ruleFiles.length id0
          (newHash a.hash (newRules a.templates a.timestamp))
          (newRules a.templates a.timestamp) ∧
      id0 = db.deployments.length + 1 ∧
      (setupProjectRules a disk db).trace =
        (if doBackup a (existingFiles disk)
          then runBackup a disk (existingFiles disk) else ([], true)).1 ++
        Ev.storeDeployment id0 ::
          (wEvs (newRules a.templates a.timestamp) ++
            ((newRules a.templates a.timestamp).map
              (fun r => r.filename)).map Ev.verifyFile ++
            [Ev.storeFactEv]) := by
  rcases setup_cases a disk db with ⟨r, hout, hne⟩ | hout
  · rw [hout] at h
    exact absurd h (hne id0 files bp)
  · obtain ⟨hb, hw⟩ := writePhase_deployed_shape a
      (resolveRulesDir a.workspacePath a.cwd) disk db (existingFiles disk)
      (newRules a.templates a.timestamp)
      (newHash a.hash (newRules a.templates a.timestamp)) id0 files bp
      (by rw [← hout]; exact h)
    have hsucc := writePhase_success a (resolveRulesDir a.workspacePath a.cwd)
      disk db (existingFiles disk) (newRules a.templates a.timestamp)
      (newHash a.hash (newRules a.templates a.timestamp)) hb hw
    rw [hsucc] at hout
    have hres := h
    rw [hout] at hres
    simp only [SetupResult.deployed.injEq] at hres
    obtain ⟨hid, _, _⟩ := hres
    refine ⟨?_, ?_, hid.symm, ?_⟩
    · rw [hout]
      refine ⟨(if doBackup a (existingFiles disk)
          then runBackup a disk (existingFiles disk) else ([], true)).1 ++
          [Ev.storeDeployment (db.deployments.length + 1)],
        wEvs (newRules a.templates a.timestamp) ++
          ((newRules a.templates a.timestamp).map
            (fun r => r.filename)).map Ev.verifyFile ++
          [Ev.storeFactEv], ?_, ?_, ?_⟩
      · simp
      · intro e he
        rcases List.mem_append.mp he with he | he
        · by_cases hdb : doBackup a (existingFiles disk) = true
          · rw [if_pos hdb] at he
            exact (runBackup_evs a disk (existingFiles disk) e he).1
          · rw [if_neg hdb] at he
            exact absurd he (List.not_mem_nil e)
        · have : e = Ev.storeDeployment (db.deployments.length + 1) :=
            List.mem_singleton.mp he
          subst this
          rfl
      · intro e he
        rcases List.mem_append.mp he with he | he
        · rcases List.mem_append.mp he with he | he
          · exact (wEvs_kinds (newRules a.templates a.timestamp) e he).1
          · rcases List.mem_map.mp he with ⟨f, _, rfl⟩
            rfl
        · have : e = Ev.storeFactEv := List.mem_singleton.mp he
          subst this
          rfl
    · rw [hout, ← hid]
    · rw [hout, ← hid]

theorem C1_witness :
    depWriteOrdered (setupProjectRules baseArgs [] DB.empty).trace ∧
      (setupProjectRules baseArgs [] DB.empty).db.ruleFiles =
        DB.empty.ruleFiles ++ mkRows DB.empty.ruleFiles.length 1
          (newHash baseArgs.hash (newRules baseArgs.templates baseArgs.timestamp))
          (newRules baseArgs.templates baseArgs.timestamp) ∧
      1 = DB.empty.deployments.length + 1 ∧
      (setupProjectRules baseArgs [] DB.empty).trace =
        (if doBackup baseArgs (existingFiles [])
          then runBackup baseArgs [] (existingFiles []) else ([], true)).1 ++
        Ev.storeDeployment 1 ::
          (wEvs (newRules baseArgs.templates baseArgs.timestamp) ++
            ((newRules baseArgs.templates baseArgs.timestamp).map
              (fun r => r.filename)).map Ev.verifyFile ++
            [Ev.storeFactEv]) :=
  C1_amended baseArgs [] DB.empty 1 ["a.mdc", "b.mdc"] none (by decide)

/-! ## C2 — the fileCount invariant -/

/-- C2 counterexample: when the write of the second artifact fails part-way
through the write loop, the store is left with a Deployment row whose
`total_files` is 2 but only one `rule_files` row referencing it — the invariant
does not hold "for every Deployment row ever present". -/
theorem C2_counterexample :
    ¬ fileCountInv (setupProjectRules argsHalfWrite [] DB.empty).db := by
  intro hinv
  have := hinv ⟨1, "2.0.0", tsOne, some "alice", 2, none⟩ (by decide)
  exact absurd this (by decide)

/-- C2 (amended): the invariant is preserved by every invocation that reaches
the `deployed` outcome (its write loop completed): on a well-formed store where
the invariant held before, it holds for every row afterwards, the new row
included.  An invocation failing part-way through the write loop violates it
(see the counterexample). -/
theorem C2_amended (a : SetupArgs) (disk : List DiskFile) (db : DB)
    (id0 : Nat) (files : List String) (bp : Option String)
    (hwf : dbWF db = true) (hinv : fileCountInv db)
    (h : (setupProjectRules a disk db).result = .deployed id0 files bp) :
    fileCountInv (setupProjectRules a disk db).db := by
  rcases setup_cases a disk db with ⟨r, hout, hne⟩ | hout
  · rw [hout] at h
    exact absurd h (hne id0 files bp)
  · obtain ⟨hb, hw⟩ := writePhase_deployed_shape a
      (resolveRulesDir a.workspacePath a.cwd) disk db (existingFiles disk)
      (newRules a.templates a.timestamp)
      (newHash a.hash (newRules a.templates a.timestamp)) id0 files bp
      (by rw [← hout]; exact h)
    have hsucc := writePhase_success a (resolveRulesDir a.workspacePath a.cwd)
      disk db (existingFiles disk) (newRules a.templates a.timestamp)
      (newHash a.hash (newRules a.templates a.timestamp)) hb hw
    rw [hsucc] at hout
    rw [hout]
    simp only [dbWF, Bool.and_eq_true, List.all_eq_true] at hwf
    obtain ⟨hwfd, hwfr⟩ := hwf
    intro d hd
    simp only [List.mem_append, List.mem_singleton] at hd
    have hfilter : ∀ k : Nat, k ≠ db.deployments.length + 1 →
        (List.filter (fun rf => rf.deploymentId == k)
          (mkRows db.ruleFiles.length (db.deployments.length + 1)
            (newHash a.hash (newRules a.templates a.timestamp))
            (newRules a.templates a.timestamp))) = [] := by
      intro k hk
      rw [List.filter_eq_nil_iff]
      intro rf hrf
      have := mkRows_depId (db.deployments.length + 1)
        (newHash a.hash (newRules a.templates a.timestamp))
        (newRules a.templates a.timestamp) db.ruleFiles.length rf hrf
      simp [this, Ne.symm hk]
    rcases hd with hd | hd
    · have hle : d.id ≤ db.deployments.length := by
        have := hwfd d hd
        exact of_decide_eq_true this
      have hkne : d.id ≠ db.deployments.length + 1 := by omega
      simp only [fileCountInv, getRuleFiles, List.filter_append]
      rw [hfilter d.id hkne, List.append_nil]
      exact hinv d hd
    · subst hd
      simp only [fileCountInv, getRuleFiles, List.filter_append]
      have hold : List.filter
          (fun rf => rf.deploymentId == db.deployments.length + 1)
          db.ruleFiles = [] := by
        rw [List.filter_eq_nil_iff]
        intro rf hrf
        have hle : rf.deploymentId ≤ db.deployments.length :=
          of_decide_eq_true (hwfr rf hrf)
        simp only [beq_iff_eq]
        omega
      rw [hold, List.nil_append]
      have hself : List.filter
          (fun rf => rf.deploymentId == db.deployments.length + 1)
          (mkRows db.ruleFiles.length (db.deployments.length + 1)
            (newHash a.hash (newRules a.templates a.timestamp))
            (newRules a.templates a.timestamp)) =
          mkRows db.ruleFiles.length (db.deployments.length + 1)
            (newHash a.hash (newRules a.templates a.timestamp))
            (newRules a.templates a.timestamp) := by
        rw [List.filter_eq_self]
        intro rf hrf
        have := mkRows_depId (db.deployments.length + 1)
          (newHash a.hash (newRules a.templates a.timestamp))
          (newRules a.templates a.timestamp) db.ruleFiles.length rf hrf
        simp [this]
      rw [hself, mkRows_length]

theorem C2_witness :
    fileCountInv (setupProjectRules baseArgs [] DB.empty).db :=
  C2_amended baseArgs [] DB.empty 1 ["a.mdc", "b.mdc"] none (by decide)
    (by intro d hd; exact absurd hd (List.not_mem_nil d)) (by decide)

/-! ## C3 — the up-to-date test versus drift -/

/-- C3 counterexample: the managed file was edited so that its on-disk hash
equals the freshly rendered template's hash but differs from the hash the
latest deployment recorded; the engine answers with a drift warning, not with
"already up to date" as the claim asserts. -/
theorem C3_counterexample :
    existingHash argsFresh.hash diskFresh "a.mdc" =
        newHash argsFresh.hash
          (newRules argsFresh.templates argsFresh.timestamp) "a.mdc" ∧
      latestDeployedHash dbFresh "a.mdc" = some "#old-content" ∧
      existingHash argsFresh.hash diskFresh "a.mdc" ≠ some "#old-content" ∧
      (setupProjectRules argsFresh diskFresh dbFresh).result =
        .driftWarning ["a.mdc"] "2024-01-01 09:00:00" "alice" ∧
      (setupProjectRules argsFresh diskFresh dbFresh).result ≠ .upToDate := by
  refine ⟨by decide, by decide, by decide, by decide, by decide⟩

/-- C3 (amended): the template-changed half of the up-to-date test does compare
the on-disk hash with the desired hash, but the "already up to date" answer
additionally requires no drift: a managed file whose on-disk hash equals the
rendered template's hash yet differs from the last-deployed hash makes the
engine return the drift warning — no write and no new Deployment row — rather
than report "already up to date". -/
theorem C3_amended (a : SetupArgs) (disk : List DiskFile) (db : DB)
    (rf : RuleFile) (h0 : String)
    (h1 : a.dirWritable = true) (h2 : 0 < (existingFiles disk).length)
    (h3 : a.forceUpdate = false)
    (hrf : rf ∈ getLatestRuleFiles db)
    (hex : existingHash a.hash disk rf.filename = some h0)
    (hne : h0 ≠ "") (hdiff : h0 ≠ rf.contentHash)
    (_hdesired : newHash a.hash (newRules a.templates a.timestamp) rf.filename =
      some h0) :
    setupProjectRules a disk db =
      ⟨.driftWarning (modifiedFiles a.hash disk (getLatestRuleFiles db))
        (match getLatestRuleDeployment db with
          | some d => d.deployedAt
          | none => "Unknown")
        (match getLatestRuleDeployment db with
          | some d => d.deployedBy.getD "Unknown"
          | none => "Unknown"),
        db, disk, []⟩ ∧
      rf.filename ∈ modifiedFiles a.hash disk (getLatestRuleFiles db) := by
  have hc := hasChanges_true_of a.hash disk (getLatestRuleFiles db) rf h0 hrf
    hex hne hdiff
  exact ⟨setup_drift_eval a disk db h1 h2 h3 hc,
    modifiedFiles_mem a.hash disk (getLatestRuleFiles db) rf h0 hrf hex hne hdiff⟩

theorem C3_witness :
    setupProjectRules argsFresh diskFresh dbFresh =
      ⟨.driftWarning
        (modifiedFiles argsFresh.hash diskFresh (getLatestRuleFiles dbFresh))
        (match getLatestRuleDeployment dbFresh with
          | some d => d.deployedAt
          | none => "Unknown")
        (match getLatestRuleDeployment dbFresh with
          | some d => d.deployedBy.getD "Unknown"
          | none => "Unknown"),
        dbFresh, diskFresh, []⟩ ∧
      "a.mdc" ∈ modifiedFiles argsFresh.hash diskFresh
        (getLatestRuleFiles dbFresh) :=
  C3_amended argsFresh diskFresh dbFresh ⟨1, 1, "a.mdc", "#old-content"⟩
    "#fresh-content" (by decide) (by decide) (by decide) (by decide)
    (by decide) (by decide) (by decide) (by decide)

/-! ## C6 — drift detection -/

/-- C6: with a baseline deployment recording file `A` and the on-disk hash of
`A` differing (and non-empty), a non-forced invocation answers with the drift
warning listing `A` together with the latest deployment's timestamp and actor;
the store and the directory are returned unchanged — no write, no new
Deployment row. -/
theorem C6_drift_warning (a : SetupArgs) (disk : List DiskFile) (db : DB)
    (d : RuleDeployment) (rf : RuleFile) (h0 : String)
    (h1 : a.dirWritable = true) (h2 : 0 < (existingFiles disk).length)
    (h3 : a.forceUpdate = false)
    (hd : getLatestRuleDeployment db = some d)
    (hrf : rf ∈ getRuleFiles db d.id)
    (hex : existingHash a.hash disk rf.filename = some h0)
    (hne : h0 ≠ "") (hdiff : h0 ≠ rf.contentHash) :
    setupProjectRules a disk db =
      ⟨.driftWarning (modifiedFiles a.hash disk (getLatestRuleFiles db))
        d.deployedAt (d.deployedBy.getD "Unknown"), db, disk, []⟩ ∧
      rf.filename ∈ modifiedFiles a.hash disk (getLatestRuleFiles db) := by
  have hlf : getLatestRuleFiles db = getRuleFiles db d.id := by
    simp [getLatestRuleFiles, hd]
  have hrfl : rf ∈ getLatestRuleFiles db := by rw [hlf]; exact hrf
  have hc := hasChanges_true_of a.hash disk (getLatestRuleFiles db) rf h0 hrfl
    hex hne hdiff
  have heval := setup_drift_eval a disk db h1 h2 h3 hc
  rw [hd] at heval
  exact ⟨heval,
    modifiedFiles_mem a.hash disk (getLatestRuleFiles db) rf h0 hrfl hex hne hdiff⟩

theorem C6_witness :
    setupProjectRules argsDrift diskDrift dbDrift =
      ⟨.driftWarning
        (modifiedFiles argsDrift.hash diskDrift (getLatestRuleFiles dbDrift))
        "2024-01-01 09:00:00" "carol", dbDrift, diskDrift, []⟩ ∧
      "a.mdc" ∈ modifiedFiles argsDrift.hash diskDrift
        (getLatestRuleFiles dbDrift) :=
  C6_drift_warning argsDrift diskDrift dbDrift
    ⟨1, "2.0.0", "2024-01-01 09:00:00", some "carol", 1, none⟩
    ⟨1, 1, "a.mdc", "#original-deployed"⟩ "#edited-by-hand"
    (by decide) (by decide) (by decide) (by decide) (by decide) (by decide)
    (by decide) (by decide)

/-! ## C7 — backup is fail-closed and skipped on an empty inventory -/

theorem writePhase_no_backup_trace (a : SetupArgs) (rulesDir : String)
    (disk : List DiskFile) (db : DB) (exFiles : List String)
    (rules : List CursorRule) (nh : String → Option String)
    (hdb : doBackup a exFiles = false) :
    ∀ e ∈ (writePhase a rulesDir disk db exFiles rules nh).trace,
      ∀ f, e ≠ Ev.backupCopy f := by
  have hbk : (if doBackup a exFiles then runBackup a disk exFiles
      else ([], true)) = ([], true) := by rw [hdb]; rfl
  intro e he f
  simp only [writePhase, hbk, Bool.not_true, Bool.false_eq_true, if_false] at he
  cases hw : (runWrites a nh
      (storeRuleDeployment db TEMPLATE_VERSION rules.length a.deployedBy
        (backupPathFor a rulesDir exFiles) a.timestamp).1 rules disk
      (storeRuleDeployment db TEMPLATE_VERSION rules.length a.deployedBy
        (backupPathFor a rulesDir exFiles) a.timestamp).2).2.2.2.2 with
  | true =>
    rw [hw] at he
    simp only [Bool.not_true, Bool.false_eq_true, if_false] at he
    by_cases hv : ((runWrites a nh
        (storeRuleDeployment db TEMPLATE_VERSION rules.length a.deployedBy
          (backupPathFor a rulesDir exFiles) a.timestamp).1 rules disk
        (storeRuleDeployment db TEMPLATE_VERSION rules.length a.deployedBy
          (backupPathFor a rulesDir exFiles) a.timestamp).2).2.2.2.1).all
        (diskHas (runWrites a nh
          (storeRuleDeployment db TEMPLATE_VERSION rules.length a.deployedBy
            (backupPathFor a rulesDir exFiles) a.timestamp).1 rules disk
          (storeRuleDeployment db TEMPLATE_VERSION rules.length a.deployedBy
            (backupPathFor a rulesDir exFiles) a.timestamp).2).1) = true
    · rw [if_pos hv] at he
      simp only [List.nil_append] at he
      rcases List.mem_cons.mp he with he | he
      · subst he; exact Ev.noConfusion
      · rcases List.mem_append.mp he with he | he
        · rcases List.mem_append.mp he with he | he
          · exact runWrites_evs_not_backup a nh _ rules disk _ e he f
          · rcases List.mem_map.mp he with ⟨g, _, rfl⟩
            exact Ev.noConfusion
        · have : e = Ev.storeFactEv := List.mem_singleton.mp he
          subst this; exact Ev.noConfusion
    · rw [if_neg hv] at he
      simp only [List.nil_append] at he
      rcases List.mem_cons.mp he with he | he
      · subst he; exact Ev.noConfusion
      · rcases List.mem_append.mp he with he | he
        · exact runWrites_evs_not_backup a nh _ rules disk _ e he f
        · rcases List.mem_map.mp he with ⟨g, _, rfl⟩
          exact Ev.noConfusion
  | false =>
    rw [hw] at he
    simp only [Bool.not_false, if_true, List.nil_append] at he
    rcases List.mem_cons.mp he with he | he
    · subst he; exact Ev.noConfusion
    · exact runWrites_evs_not_backup a nh _ rules disk _ e he f

/-- C7: the backup is fail-closed and skipped exactly on an empty inventory.
With backup requested, a non-empty inventory, and some managed file whose copy
fails, nothing is deployed and neither the store nor the directory changes
(the failing copy aborts the whole write).  With an empty inventory no backup
copy is ever performed and a deployed outcome carries no backup path. -/
theorem C7_backup (a : SetupArgs) (disk : List DiskFile) (db : DB) :
    (a.backupExisting = true → 0 < (existingFiles disk).length →
      (∃ f ∈ existingFiles disk, copyOkFor a disk f = false) →
      (setupProjectRules a disk db).db = db ∧
        (setupProjectRules a disk db).disk = disk ∧
        ∀ id0 files bp,
          (setupProjectRules a disk db).result ≠ .deployed id0 files bp) ∧
    ((existingFiles disk).length = 0 →
      (∀ e ∈ (setupProjectRules a disk db).trace, ∀ f, e ≠ Ev.backupCopy f) ∧
      (∀ id0 files bp,
        (setupProjectRules a disk db).result = .deployed id0 files bp →
          bp = none)) := by
  constructor
  · intro hbe hlen ⟨f0, hf0, hfail⟩
    have hdb : doBackup a (existingFiles disk) = true := by
      simp [doBackup, hbe, hlen]
    have hnotall : (runBackup a disk (existingFiles disk)).2 = false := by
      rw [runBackup_ok]
      rw [List.all_eq_false]
      exact ⟨f0, hf0, by simp [hfail]⟩
    rcases setup_cases a disk db with ⟨r, hout, hne⟩ | hout
    · rw [hout]
      exact ⟨rfl, rfl, hne⟩
    · rw [hout, writePhase_backup_fail a _ disk db (existingFiles disk) _ _
        hdb hnotall]
      exact ⟨rfl, rfl, fun id0 files bp => SetupResult.noConfusion⟩
  · intro hlen
    have hdb : doBackup a (existingFiles disk) = false := by
      simp [doBackup, hlen]
    constructor
    · rcases setup_cases a disk db with ⟨r, hout, hne⟩ | hout
      · rw [hout]
        intro e he
        exact absurd he (List.not_mem_nil e)
      · rw [hout]
        exact writePhase_no_backup_trace a _ disk db (existingFiles disk) _ _ hdb
    · intro id0 files bp h
      rcases setup_cases a disk db with ⟨r, hout, hne⟩ | hout
      · rw [hout] at h
        exact absurd h (hne id0 files bp)
      · rw [hout] at h
        obtain ⟨hb, hw⟩ := writePhase_deployed_shape a
          (resolveRulesDir a.workspacePath a.cwd) disk db (existingFiles disk)
          (newRules a.templates a.timestamp)
          (newHash a.hash (newRules a.templates a.timestamp)) id0 files bp h
        have hsucc := writePhase_success a (resolveRulesDir a.workspacePath a.cwd)
          disk db (existingFiles disk) (newRules a.templates a.timestamp)
          (newHash a.hash (newRules a.templates a.timestamp)) hb hw
        rw [hsucc] at h
        simp only [SetupResult.deployed.injEq] at h
        obtain ⟨_, _, hbp⟩ := h
        rw [← hbp]
        simp [backupPathFor, hdb]

theorem C7_witness :
    ((setupProjectRules argsNoCopy diskOneFile DB.empty).db = DB.empty ∧
      (setupProjectRules argsNoCopy diskOneFile DB.empty).disk = diskOneFile ∧
      ∀ id0 files bp,
        (setupProjectRules argsNoCopy diskOneFile DB.empty).result ≠
          .deployed id0 files bp) ∧
    ((∀ e ∈ (setupProjectRules baseArgs [] DB.empty).trace,
        ∀ f, e ≠ Ev.backupCopy f) ∧
      (∀ id0 files bp,
        (setupProjectRules baseArgs [] DB.empty).result =
          .deployed id0 files bp → bp = none)) :=
  ⟨(C7_backup argsNoCopy diskOneFile DB.empty).1 (by decide) (by decide)
      ⟨"a.mdc", by decide, by decide⟩,
    (C7_backup baseArgs [] DB.empty).2 (by decide)⟩

/-! ## C9 — the audit fact of a successful deployment -/

/-- C9: every deployed outcome appends exactly one row to the facts store —
category `project-setup`, tags including `cursor-rules` and `deployment` — so
the fact store never stays unchanged across a successful deployment. -/
theorem C9_deploy_fact (a : SetupArgs) (disk : List DiskFile) (db : DB)
    (id0 : Nat) (files : List String) (bp : Option String)
    (h : (setupProjectRules a disk db).result = .deployed id0 files bp) :
    (setupProjectRules a disk db).db.facts =
      db.facts ++ [deployFact db a (newRules a.templates a.timestamp) files] ∧
      (deployFact db a (newRules a.templates a.timestamp) files).category =
        "project-setup" ∧
      "cursor-rules" ∈
        (deployFact db a (newRules a.templates a.timestamp) files).tags ∧
      "deployment" ∈
        (deployFact db a (newRules a.templates a.timestamp) files).tags ∧
      (setupProjectRules a disk db).db.facts ≠ db.facts := by
  rcases setup_cases a disk db with ⟨r, hout, hne⟩ | hout
  · rw [hout] at h
    exact absurd h (hne id0 files bp)
  · obtain ⟨hb, hw⟩ := writePhase_deployed_shape a
      (resolveRulesDir a.workspacePath a.cwd) disk db (existingFiles disk)
      (newRules a.templates a.timestamp)
      (newHash a.hash (newRules a.templates a.timestamp)) id0 files bp
      (by rw [← hout]; exact h)
    have hsucc := writePhase_success a (resolveRulesDir a.workspacePath a.cwd)
      disk db (existingFiles disk) (newRules a.templates a.timestamp)
      (newHash a.hash (newRules a.templates a.timestamp)) hb hw
    rw [hsucc] at hout
    have hres := h
    rw [hout] at hres
    simp only [SetupResult.deployed.injEq] at hres
    obtain ⟨_, hfiles, _⟩ := hres
    refine ⟨?_, rfl, by simp [deployFact], by simp [deployFact], ?_⟩
    · rw [hout, ← hfiles]
    · rw [hout]
      intro hbad
      have := congrArg List.length hbad
      simp at this

theorem C9_witness :
    (setupProjectRules baseArgs [] DB.empty).db.facts =
      DB.empty.facts ++
        [deployFact DB.empty baseArgs
          (newRules baseArgs.templates baseArgs.timestamp) ["a.mdc", "b.mdc"]] ∧
      (deployFact DB.empty baseArgs
        (newRules baseArgs.templates baseArgs.timestamp)
        ["a.mdc", "b.mdc"]).category = "project-setup" ∧
      "cursor-rules" ∈ (deployFact DB.empty baseArgs
        (newRules baseArgs.templates baseArgs.timestamp)
        ["a.mdc", "b.mdc"]).tags ∧
      "deployment" ∈ (deployFact DB.empty baseArgs
        (newRules baseArgs.templates baseArgs.timestamp)
        ["a.mdc", "b.mdc"]).tags ∧
      (setupProjectRules baseArgs [] DB.empty).db.facts ≠ DB.empty.facts :=
  C9_deploy_fact baseArgs [] DB.empty 1 ["a.mdc", "b.mdc"] none (by decide)

/-! ## C10 — a recorded file missing from disk never warns by itself -/

/-- C10: with at least one `.mdc` file still on disk and `forceUpdate` false, a
file recorded by the latest deployment but absent (or unreadable) on disk
contributes nothing to the drift check; when no readable file genuinely
drifted, its absence turns the template-changed test true and the run proceeds
to write — it deploys rather than warns. -/
theorem C10_absent_file (a : SetupArgs) (disk : List DiskFile) (db : DB)
    (d : RuleDeployment) (rf : RuleFile)
    (h1 : a.dirWritable = true) (_h2 : 0 < (existingFiles disk).length)
    (h3 : a.forceUpdate = false)
    (_hd : getLatestRuleDeployment db = some d)
    (_hrf : rf ∈ getRuleFiles db d.id)
    (habs : existingHash a.hash disk rf.filename = none)
    (hmem : rf.filename ∈
      (newRules a.templates a.timestamp).map (fun r => r.filename))
    (hnc : hasChanges a.hash disk (getLatestRuleFiles db) = false)
    (hbok : doBackup a (existingFiles disk) = true →
      (runBackup a disk (existingFiles disk)).2 = true)
    (hwok : ∀ f, a.writeOk f = true) :
    hasNewTemplate a.hash disk (newRules a.templates a.timestamp) = true ∧
      (∀ m la lb,
        (setupProjectRules a disk db).result ≠ .driftWarning m la lb) ∧
      (setupProjectRules a disk db).result ≠ .upToDate ∧
      ∃ files bp, (setupProjectRules a disk db).result =
        .deployed (db.deployments.length + 1) files bp := by
  rcases List.mem_map.mp hmem with ⟨r, hr, hrname⟩
  have hnt : hasNewTemplate a.hash disk (newRules a.templates a.timestamp) =
      true :=
    hasNewTemplate_of_absent a.hash disk (newRules a.templates a.timestamp) r hr
      (by rw [hrname]; exact habs)
  have hout := setup_write_of_tmpl a disk db h1 h3 hnc hnt
  have hwrite : (runWrites a
      (newHash a.hash (newRules a.templates a.timestamp))
      (db.deployments.length + 1) (newRules a.templates a.timestamp) disk
      { db with deployments := db.deployments ++
          [⟨db.deployments.length + 1, TEMPLATE_VERSION, a.timestamp,
            a.deployedBy, (newRules a.templates a.timestamp).length,
            backupPathFor a (resolveRulesDir a.workspacePath a.cwd)
              (existingFiles disk)⟩] }).2.2.2.2 = true :=
    runWrites_ok_of_all a _ _ _ disk _ (fun x _ => hwok x.filename)
  have hsucc := writePhase_success a (resolveRulesDir a.workspacePath a.cwd)
    disk db (existingFiles disk) (newRules a.templates a.timestamp)
    (newHash a.hash (newRules a.templates a.timestamp)) hbok hwrite
  rw [hsucc] at hout
  rw [hout]
  exact ⟨hnt, fun m la lb => SetupResult.noConfusion,
    SetupResult.noConfusion, _, _, rfl⟩

theorem C10_witness :
    hasNewTemplate baseArgs.hash diskMissing
        (newRules baseArgs.templates baseArgs.timestamp) = true ∧
      (∀ m la lb,
        (setupProjectRules baseArgs diskMissing dbMissing).result ≠
          .driftWarning m la lb) ∧
      (setupProjectRules baseArgs diskMissing dbMissing).result ≠ .upToDate ∧
      ∃ files bp, (setupProjectRules baseArgs diskMissing dbMissing).result =
        .deployed (dbMissing.deployments.length + 1) files bp :=
  C10_absent_file baseArgs diskMissing dbMissing
    ⟨1, "2.0.0", "2024-01-01 09:00:00", some "dave", 2, none⟩
    ⟨1, 1, "a.mdc", "#alpha-content"⟩
    (by decide) (by decide) (by decide) (by decide) (by decide) (by decide)
    (by decide) (by decide) (fun _ => by decide) (fun f => rfl)

/-! ## C8 — rules-directory resolution -/

theorem jsEndsWith_pathJoin (x sub : String) :
    jsEndsWith (pathJoin x sub) sub = true := by
  unfold pathJoin
  by_cases h : jsEndsWith x "/" = true
  · rw [if_pos h, jsEndsWith]
    exact List.isSuffixOf_iff_suffix.mpr
      (by rw [String.data_append]; exact List.suffix_append _ _)
  · rw [if_neg h, jsEndsWith]
    exact List.isSuffixOf_iff_suffix.mpr
      (by rw [String.data_append]; exact List.suffix_append _ _)

theorem resolveRulesDir_endsWith (w : Option String) (cwd : String) :
    jsEndsWith (resolveRulesDir w cwd) cursorRulesSub = true := by
  cases w with
  | none => exact jsEndsWith_pathJoin cwd cursorRulesSub
  | some wp =>
    by_cases h0 : (wp == "") = true
    · simp only [resolveRulesDir, if_pos h0]
      exact jsEndsWith_pathJoin cwd cursorRulesSub
    · by_cases h1 : jsEndsWith wp cursorRulesSub = true
      · simp only [resolveRulesDir, if_neg h0, if_pos h1]
        exact h1
      · simp only [resolveRulesDir, if_neg h0, if_neg h1]
        exact jsEndsWith_pathJoin wp cursorRulesSub

theorem resolveRulesDir_ne_empty (w : Option String) (cwd : String) :
    resolveRulesDir w cwd ≠ "" := by
  intro h
  have hend := resolveRulesDir_endsWith w cwd
  rw [h, jsEndsWith] at hend
  have hsuf := List.isSuffixOf_iff_suffix.mp hend
  have : cursorRulesSub.data = ([] : List Char) := List.suffix_nil.mp hsuf
  exact absurd this (by decide)

theorem resolveRulesDir_of_endsWith (s cwd : String) (h1 : s ≠ "")
    (h2 : jsEndsWith s cursorRulesSub = true) :
    resolveRulesDir (some s) cwd = s := by
  have hbe : (s == "") = false := beq_eq_false_iff_ne.mpr h1
  simp [resolveRulesDir, hbe, h2]

/-- C8: the rules directory never double-appends the fixed subpath: a supplied
non-empty path already ending in `.cursor/rules` is used as-is, any other
non-empty path gets the subpath appended exactly once, an absent path falls
back to the working directory, and resolving an already-resolved path is the
identity. -/
theorem C8_rules_dir (wp cwd : String) :
    resolveRulesDir none cwd = pathJoin cwd cursorRulesSub ∧
      (wp ≠ "" → jsEndsWith wp cursorRulesSub = true →
        resolveRulesDir (some wp) cwd = wp) ∧
      (wp ≠ "" → jsEndsWith wp cursorRulesSub = false →
        resolveRulesDir (some wp) cwd = pathJoin wp cursorRulesSub) ∧
      jsEndsWith (resolveRulesDir (some wp) cwd) cursorRulesSub = true ∧
      resolveRulesDir (some (resolveRulesDir (some wp) cwd)) cwd =
        resolveRulesDir (some wp) cwd := by
  refine ⟨rfl, ?_, ?_, resolveRulesDir_endsWith (some wp) cwd, ?_⟩
  · exact fun hne hend => resolveRulesDir_of_endsWith wp cwd hne hend
  · intro hne hend
    have hbe : (wp == "") = false := beq_eq_false_iff_ne.mpr hne
    simp [resolveRulesDir, hbe, hend]
  · exact resolveRulesDir_of_endsWith _ cwd
      (resolveRulesDir_ne_empty (some wp) cwd)
      (resolveRulesDir_endsWith (some wp) cwd)

theorem C8_witness :
    resolveRulesDir none "/cwd" = pathJoin "/cwd" cursorRulesSub ∧
      resolveRulesDir (some "/w") "/cwd" = pathJoin "/w" cursorRulesSub ∧
      resolveRulesDir (some "/w/.cursor/rules") "/cwd" = "/w/.cursor/rules" ∧
      resolveRulesDir (some (resolveRulesDir (some "/w") "/cwd")) "/cwd" =
        resolveRulesDir (some "/w") "/cwd" :=
  ⟨(C8_rules_dir "/w" "/cwd").1,
    (C8_rules_dir "/w" "/cwd").2.2.1 (by decide) (by decide),
    (C8_rules_dir "/w/.cursor/rules" "/cwd").2.1 (by decide) (by decide),
    (C8_rules_dir "/w" "/cwd").2.2.2.2⟩

/-! ## Lookup and rendering lemmas for idempotence -/

theorem existingHash_eq_lookup (hash : String → String) (disk : List DiskFile)
    (f : String) :
    existingHash hash disk f = (lookupMdc disk f).map (fun d => hash d.content) :=
  rfl

theorem lookupMdc_diskWrite_self (f c : String)
    (hmdc : jsEndsWith f ".mdc" = true) :
    ∀ d : List DiskFile, lookupMdc (diskWrite d f c) f = some ⟨f, c, true⟩
  | [] => by
    simp [lookupMdc, diskWrite, mdcFiles, hmdc, List.find?]
  | e :: es => by
    by_cases h : (e.name == f) = true
    · simp [diskWrite, h, lookupMdc, mdcFiles, hmdc, List.filter_cons,
        List.find?]
    · have hf : (e.name == f) = false := not_eq_true_eq_false h
      have hrec := lookupMdc_diskWrite_self f c hmdc es
      by_cases hm : jsEndsWith e.name ".mdc" = true <;>
        by_cases hr : e.readable = true <;>
          simpa [diskWrite, hf, lookupMdc, mdcFiles, List.filter_cons, hm, hr,
            List.find?_cons] using hrec

theorem lookupMdc_diskWrite_other (n c f : String) (hne : ¬ n = f) :
    ∀ d : List DiskFile, lookupMdc (diskWrite d n c) f = lookupMdc d f
  | [] => by
    by_cases hm : jsEndsWith n ".mdc" = true <;>
      simp [lookupMdc, diskWrite, mdcFiles, List.filter_cons, hm, List.find?,
        beq_iff_eq, hne]
  | e :: es => by
    have hrec := lookupMdc_diskWrite_other n c f hne es
    by_cases h : (e.name == n) = true
    · have hen : e.name = n := beq_iff_eq.mp h
      have hnf : (n == f) = false := beq_eq_false_iff_ne.mpr hne
      by_cases hm : jsEndsWith n ".mdc" = true <;>
        by_cases hr : e.readable = true <;>
          simp [diskWrite, h, lookupMdc, mdcFiles, List.filter_cons, hen, hm,
            hr, List.find?_cons, hnf]
    · have hf : (e.name == n) = false := not_eq_true_eq_false h
      by_cases hm : jsEndsWith e.name ".mdc" = true <;>
        by_cases hr : e.readable = true <;>
          by_cases hef : (e.name == f) = true <;>
            simpa [diskWrite, hf, lookupMdc, mdcFiles, List.filter_cons, hm,
              hr, hef, List.find?_cons] using hrec

theorem lookupMdc_writeAll_not_mem (f : String) :
    ∀ (rules : List CursorRule) (disk : List DiskFile),
      (∀ r ∈ rules, ¬ r.filename = f) →
      lookupMdc (writeAll disk rules) f = lookupMdc disk f
  | [], _ => fun _ => rfl
  | r :: rs, disk => fun h => by
    have h1 : ¬ r.filename = f := h r (List.mem_cons_self r rs)
    calc lookupMdc (writeAll (diskWrite disk r.filename r.content) rs) f =
        lookupMdc (diskWrite disk r.filename r.content) f :=
          lookupMdc_writeAll_not_mem f rs _
            (fun x hx => h x (List.mem_cons_of_mem r hx))
      _ = lookupMdc disk f := lookupMdc_diskWrite_other r.filename r.content f
          h1 disk

theorem lookupMdc_writeAll_mem (t : CursorRule)
    (hmdc : jsEndsWith t.filename ".mdc" = true) :
    ∀ (rules : List CursorRule) (disk : List DiskFile),
      (rules.map (fun r => r.filename)).Nodup → t ∈ rules →
      lookupMdc (writeAll disk rules) t.filename =
        some ⟨t.filename, t.content, true⟩
  | [], _ => fun _ h => absurd h (List.not_mem_nil t)
  | r :: rs, disk => by
    intro hnd hmem
    rcases List.mem_cons.mp hmem with h | h
    · subst h
      have hcons : (t.filename :: rs.map (fun r => r.filename)).Nodup := by
        simpa using hnd
      obtain ⟨hnotin, _⟩ := List.nodup_cons.mp hcons
      have hnot : ∀ x ∈ rs, ¬ x.filename = t.filename := by
        intro x hx hbad
        exact hnotin (List.mem_map.mpr ⟨x, hx, hbad⟩)
      have e1 := lookupMdc_writeAll_not_mem t.filename rs
        (diskWrite disk t.filename t.content) hnot
      have e2 := lookupMdc_diskWrite_self t.filename t.content hmdc disk
      show lookupMdc (writeAll (diskWrite disk t.filename t.content) rs)
        t.filename = some ⟨t.filename, t.content, true⟩
      rw [e1, e2]
    · have hcons : (r.filename :: rs.map (fun x => x.filename)).Nodup := by
        simpa using hnd
      exact lookupMdc_writeAll_mem t hmdc rs
        (diskWrite disk r.filename r.content)
        (List.nodup_cons.mp hcons).2 h

theorem lookupMdc_some_inventory (disk : List DiskFile) (f : String)
    (x : DiskFile) (h : lookupMdc disk f = some x) :
    0 < (existingFiles disk).length := by
  have hmem := List.mem_of_find?_eq_some h
  have hmem2 : x ∈ mdcFiles disk := List.mem_of_mem_filter hmem
  have : x.name ∈ existingFiles disk := List.mem_map.mpr ⟨x, hmem2, rfl⟩
  exact List.length_pos.mpr (List.ne_nil_of_mem this)

theorem replaceAux_not_mem (h0 : Char) (pt rep : List Char) :
    ∀ (fuel : Nat) (l : List Char), (∀ c ∈ l, ¬ c = h0) →
      replaceAux (h0 :: pt) rep l fuel = l
  | 0, l => fun _ => by cases l <;> rfl
  | _ + 1, [] => fun _ => rfl
  | fuel + 1, c :: rest => fun hall => by
    have hc : ¬ c = h0 := hall c (List.mem_cons_self c rest)
    have hpre : (h0 :: pt).isPrefixOf (c :: rest) = false := by
      simp only [List.isPrefixOf]
      rw [Bool.and_eq_false_iff]
      exact Or.inl (by simpa using fun hbad => hc hbad.symm)
    simp only [replaceAux, hpre, Bool.false_eq_true, if_false]
    rw [replaceAux_not_mem h0 pt rep fuel rest
      (fun x hx => hall x (List.mem_cons_of_mem c hx))]

theorem renderRule_tokenFree (t : CursorRule) (h : tokenFree t = true)
    (ts : String) : renderRule ts t = t := by
  have hall : ∀ c ∈ t.content.data, ¬ c = '{' := by
    rw [tokenFree, List.all_eq_true] at h
    intro c hc hbad
    have := h c hc
    rw [hbad] at this
    simp at this
  have hdata : "{timestamp}".data = '{' :: "timestamp\x7d".data := rfl
  simp only [renderRule, jsReplaceAll, hdata]
  rw [if_neg (by simp)]
  rw [replaceAux_not_mem '{' "timestamp\x7d".data ts.data t.content.data.length
    t.content.data hall]

theorem newRules_tokenFree (ts : String) :
    ∀ templates : List CursorRule, (∀ t ∈ templates, tokenFree t = true) →
      newRules templates ts = templates
  | [] => fun _ => rfl
  | t :: rest => fun h => by
    simp only [newRules, List.map_cons]
    rw [renderRule_tokenFree t (h t (List.mem_cons_self t rest)) ts]
    have := newRules_tokenFree ts rest
      (fun x hx => h x (List.mem_cons_of_mem t hx))
    simp only [newRules] at this
    rw [this]

theorem newHash_mem_nodup (hash : String → String) (rules : List CursorRule)
    (r : CursorRule) (hnd : (rules.map (fun x => x.filename)).Nodup)
    (hr : r ∈ rules) :
    newHash hash rules r.filename = some (hash r.content) := by
  cases hfind : rules.find? (fun x => x.filename == r.filename) with
  | none =>
    exfalso
    have := List.find?_eq_none.mp hfind r hr
    simp at this
  | some y =>
    have hy := List.mem_of_find?_eq_some hfind
    have hname : y.filename = r.filename := by
      have := List.find?_some hfind
      exact beq_iff_eq.mp this
    have hyr : y = r := by
      have hinj := List.inj_on_of_nodup_map hnd
      exact hinj hy hr hname
    rw [newHash, hfind, hyr]
    rfl

theorem mkRows_shape (depId : Nat) (nh : String → Option String) :
    ∀ (rules : List CursorRule) (startId : Nat),
      ∀ rf ∈ mkRows startId depId nh rules,
        ∃ r ∈ rules, rf.filename = r.filename ∧
          rf.contentHash = (nh r.filename).getD ""
  | [], _ => by simp [mkRows]
  | r :: rs, startId => by
    intro rf hrf
    rcases List.mem_cons.mp hrf with h | h
    · subst h
      exact ⟨r, List.mem_cons_self r rs, rfl, rfl⟩
    · obtain ⟨x, hx, hfn, hch⟩ := mkRows_shape depId nh rs (startId + 1) rf h
      exact ⟨x, List.mem_cons_of_mem r hx, hfn, hch⟩

theorem getLatest_of_deployments (db2 : DB) (l : List RuleDeployment)
    (x : RuleDeployment) (hdep : db2.deployments = l ++ [x])
    (h : ∀ e ∈ l, laterDep e x = true) :
    getLatestRuleDeployment db2 = some x := by
  show db2.deployments.foldl latestStep none = some x
  rw [hdep, List.foldl_append]
  cases hacc : l.foldl latestStep none with
  | none => simp [latestStep]
  | some b =>
    obtain ⟨hA, _, _⟩ := foldl_latestStep_spec l none b hacc
    have hmem : b ∈ l := by
      rcases hA with hA | hA
      · exact absurd hA (by simp)
      · exact hA
    simp [latestStep, h b hmem]

theorem writePhase_result_shape (a : SetupArgs) (rulesDir : String)
    (disk : List DiskFile) (db : DB) (exFiles : List String)
    (rules : List CursorRule) (nh : String → Option String) :
    (∃ id0 files bp, (writePhase a rulesDir disk db exFiles rules nh).result =
      .deployed id0 files bp) ∨
    (∃ msg, (writePhase a rulesDir disk db exFiles rules nh).result =
      .error msg) := by
  have hsd : storeRuleDeployment db TEMPLATE_VERSION rules.length a.deployedBy
      (backupPathFor a rulesDir exFiles) a.timestamp =
      (db.deployments.length + 1,
        { db with deployments := db.deployments ++
          [⟨db.deployments.length + 1, TEMPLATE_VERSION, a.timestamp,
            a.deployedBy, rules.length, backupPathFor a rulesDir exFiles⟩] }) := rfl
  by_cases hbk : (if doBackup a exFiles then runBackup a disk exFiles
      else ([], true)).2 = true
  · by_cases hwk : (runWrites a nh (db.deployments.length + 1) rules disk
        { db with deployments := db.deployments ++
            [⟨db.deployments.length + 1, TEMPLATE_VERSION, a.timestamp,
              a.deployedBy, rules.length, backupPathFor a rulesDir exFiles⟩] }
        ).2.2.2.2 = true
    · by_cases hv : ((runWrites a nh (db.deployments.length + 1) rules disk
          { db with deployments := db.deployments ++
              [⟨db.deployments.length + 1, TEMPLATE_VERSION, a.timestamp,
                a.deployedBy, rules.length,
                backupPathFor a rulesDir exFiles⟩] }).2.2.2.1).all
          (diskHas (runWrites a nh (db.deployments.length + 1) rules disk
            { db with deployments := db.deployments ++
                [⟨db.deployments.length + 1, TEMPLATE_VERSION, a.timestamp,
                  a.deployedBy, rules.length,
                  backupPathFor a rulesDir exFiles⟩] }).1) = true
      · refine Or.inl ⟨db.deployments.length + 1,
          (runWrites a nh (db.deployments.length + 1) rules disk
            { db with deployments := db.deployments ++
                [⟨db.deployments.length + 1, TEMPLATE_VERSION, a.timestamp,
                  a.deployedBy, rules.length,
                  backupPathFor a rulesDir exFiles⟩] }).2.2.2.1,
          backupPathFor a rulesDir exFiles, ?_⟩
        simp only [writePhase, hsd, hbk, hwk, hv, Bool.not_true,
          Bool.false_eq_true, if_false, if_true]
      · refine Or.inr ⟨"Rule file missing after write", ?_⟩
        simp only [writePhase, hsd, hbk, hwk, not_eq_true_eq_false hv,
          Bool.not_true, Bool.false_eq_true, if_false, if_true]
    · refine Or.inr ⟨"Failed to write rule file", ?_⟩
      simp only [writePhase, hsd, hbk, not_eq_true_eq_false hwk,
        Bool.not_true, Bool.not_false, Bool.false_eq_true, if_false, if_true]
  · refine Or.inr ⟨"backup failed", ?_⟩
    simp only [writePhase, not_eq_true_eq_false hbk, Bool.not_false, if_true]

theorem writePhase_result_ne_upToDate (a : SetupArgs) (rulesDir : String)
    (disk : List DiskFile) (db : DB) (exFiles : List String)
    (rules : List CursorRule) (nh : String → Option String) :
    (writePhase a rulesDir disk db exFiles rules nh).result ≠ .upToDate := by
  intro h
  rcases writePhase_result_shape a rulesDir disk db exFiles rules nh with
    ⟨id0, files, bp, hr⟩ | ⟨msg, hr⟩
  · rw [h] at hr
    exact SetupResult.noConfusion hr
  · rw [h] at hr
    exact SetupResult.noConfusion hr

/-- Inversion of the no-op outcome: "already up to date" arises only from the
non-forced decision branch with no drift and no template change, and it leaves
store and directory untouched. -/
theorem setup_upToDate_inv (a : SetupArgs) (disk : List DiskFile) (db : DB)
    (h : (setupProjectRules a disk db).result = .upToDate) :
    setupProjectRules a disk db = ⟨.upToDate, db, disk, []⟩ ∧
      a.dirWritable = true ∧ a.forceUpdate = false ∧
      0 < (existingFiles disk).length ∧
      hasChanges a.hash disk (getLatestRuleFiles db) = false ∧
      hasNewTemplate a.hash disk (newRules a.templates a.timestamp) = false := by
  by_cases h1 : a.dirWritable = true
  · by_cases h3 : a.forceUpdate = true
    · exfalso
      rw [setup_write_of_force a disk db h1 h3] at h
      exact writePhase_result_ne_upToDate a _ disk db _ _ _ h
    · have h3f := not_eq_true_eq_false h3
      by_cases h2 : 0 < (existingFiles disk).length
      · by_cases h4 : hasChanges a.hash disk (getLatestRuleFiles db) = true
        · exfalso
          rw [setup_drift_eval a disk db h1 h2 h3f h4] at h
          exact SetupResult.noConfusion h
        · have h4f := not_eq_true_eq_false h4
          by_cases h5 : hasNewTemplate a.hash disk
              (newRules a.templates a.timestamp) = true
          · exfalso
            rw [setup_write_of_tmpl a disk db h1 h3f h4f h5] at h
            exact writePhase_result_ne_upToDate a _ disk db _ _ _ h
          · have h5f := not_eq_true_eq_false h5
            exact ⟨setup_upToDate_eval a disk db h1 h2 h3f h4f h5f, h1, h3f,
              h2, h4f, h5f⟩
      · exfalso
        have h2z : (existingFiles disk).length = 0 := by omega
        rw [setup_write_of_empty a disk db h1 h2z] at h
        exact writePhase_result_ne_upToDate a _ disk db _ _ _ h
  · exfalso
    rw [setup_not_writable a disk db (not_eq_true_eq_false h1)] at h
    exact SetupResult.noConfusion h

/-! ## C5 — idempotence of reconciliation -/

/-- C5 counterexample: with a pre-existing manual edit, both calls answer with
the drift warning: the second of two identical non-forced invocations with no
modification between them is not "already up to date". -/
theorem C5_counterexample :
    (setupProjectRules argsDrift diskDrift dbDrift).disk = diskDrift ∧
      (setupProjectRules argsDrift diskDrift dbDrift).db = dbDrift ∧
      (setupProjectRules { argsDrift with timestamp := tsTwo }
        (setupProjectRules argsDrift diskDrift dbDrift).disk
        (setupProjectRules argsDrift diskDrift dbDrift).db).result ≠
        .upToDate ∧
      (setupProjectRules { argsDrift with timestamp := tsTwo }
        (setupProjectRules argsDrift diskDrift dbDrift).disk
        (setupProjectRules argsDrift diskDrift dbDrift).db).result =
        .driftWarning ["a.mdc"] "2024-01-01 09:00:00" "carol" := by
  refine ⟨by decide, by decide, by decide, by decide⟩

/-- C5 (amended): provided the first call does not end in a drift warning or
an error — it deploys or reports "already up to date" — a second call with
the same inputs (any later timestamp) and no external modification reports
"already up to date", writes nothing and appends no row.  A drift warning
instead repeats on the second call (see the counterexample).  The hypotheses
state facts true of the shipped template set: contents free of the timestamp
token, `.mdc` filenames, pairwise-distinct names, non-empty SHA-256
digests. -/
theorem C5_amended (a : SetupArgs) (disk : List DiskFile) (db : DB)
    (ts2 : String)
    (htf : ∀ t ∈ a.templates, tokenFree t = true)
    (hmdc : ∀ t ∈ a.templates, jsEndsWith t.filename ".mdc" = true)
    (hnodup : (a.templates.map (fun t => t.filename)).Nodup)
    (hnil : a.templates ≠ [])
    (hhash : ∀ t ∈ a.templates, ¬ a.hash t.content = "")
    (hforce : a.forceUpdate = false)
    (hfresh : freshTime db a.timestamp = true)
    (hwf : dbWF db = true)
    (hgood : (∃ id0 files bp, (setupProjectRules a disk db).result =
        .deployed id0 files bp) ∨
      (setupProjectRules a disk db).result = .upToDate) :
    setupProjectRules { a with timestamp := ts2 }
        (setupProjectRules a disk db).disk (setupProjectRules a disk db).db =
      ⟨.upToDate, (setupProjectRules a disk db).db,
        (setupProjectRules a disk db).disk, []⟩ := by
  rcases hgood with ⟨id0, files, bp, hdep⟩ | hup
  case inr =>
    obtain ⟨hout, h1, h3, h2, h4, h5⟩ := setup_upToDate_inv a disk db hup
    rw [hout]
    have hnt2 : hasNewTemplate a.hash disk (newRules a.templates ts2) =
        false := by
      rw [newRules_tokenFree ts2 a.templates htf,
        ← newRules_tokenFree a.timestamp a.templates htf]
      exact h5
    exact setup_upToDate_eval { a with timestamp := ts2 } disk db h1 h2 h3 h4
      hnt2
  case inl =>
  have heqr : newRules a.templates a.timestamp = a.templates :=
    newRules_tokenFree a.timestamp a.templates htf
  have hwr : a.dirWritable = true := by
    by_cases hx : a.dirWritable = true
    · exact hx
    · rw [setup_not_writable a disk db (not_eq_true_eq_false hx)] at hdep
      exact absurd hdep (fun hh => SetupResult.noConfusion hh)
  rcases setup_cases a disk db with ⟨r, hout, hne⟩ | hout
  · rw [hout] at hdep
    exact absurd hdep (hne id0 files bp)
  obtain ⟨hb, hw⟩ := writePhase_deployed_shape a
    (resolveRulesDir a.workspacePath a.cwd) disk db (existingFiles disk)
    (newRules a.templates a.timestamp)
    (newHash a.hash (newRules a.templates a.timestamp)) id0 files bp
    (by rw [← hout]; exact hdep)
  have hsucc := writePhase_success a (resolveRulesDir a.workspacePath a.cwd)
    disk db (existingFiles disk) (newRules a.templates a.timestamp)
    (newHash a.hash (newRules a.templates a.timestamp)) hb hw
  rw [hsucc] at hout
  rw [heqr] at hout
  rw [hout]
  simp only [dbWF, Bool.and_eq_true, List.all_eq_true] at hwf
  obtain ⟨_, hwfr⟩ := hwf
  have hlat : getLatestRuleDeployment
      { db with
        deployments := db.deployments ++
          [⟨db.deployments.length + 1, TEMPLATE_VERSION, a.timestamp,
            a.deployedBy, a.templates.length,
            backupPathFor a (resolveRulesDir a.workspacePath a.cwd)
              (existingFiles disk)⟩],
        ruleFiles := db.ruleFiles ++
          mkRows db.ruleFiles.length (db.deployments.length + 1)
            (newHash a.hash a.templates) a.templates,
        facts := db.facts ++
          [deployFact db a a.templates
            (a.templates.map (fun r => r.filename))] } =
      some ⟨db.deployments.length + 1, TEMPLATE_VERSION, a.timestamp,
        a.deployedBy, a.templates.length,
        backupPathFor a (resolveRulesDir a.workspacePath a.cwd)
          (existingFiles disk)⟩ := by
    refine getLatest_of_deployments _ db.deployments _ rfl ?_
    intro e he
    rw [freshTime, List.all_eq_true] at hfresh
    have := hfresh e he
    rw [laterDep]
    simp [this]
  have hfiles : getLatestRuleFiles
      { db with
        deployments := db.deployments ++
          [⟨db.deployments.length + 1, TEMPLATE_VERSION, a.timestamp,
            a.deployedBy, a.templates.length,
            backupPathFor a (resolveRulesDir a.workspacePath a.cwd)
              (existingFiles disk)⟩],
        ruleFiles := db.ruleFiles ++
          mkRows db.ruleFiles.length (db.deployments.length + 1)
            (newHash a.hash a.templates) a.templates,
        facts := db.facts ++
          [deployFact db a a.templates
            (a.templates.map (fun r => r.filename))] } =
      mkRows db.ruleFiles.length (db.deployments.length + 1)
        (newHash a.hash a.templates) a.templates := by
    rw [getLatestRuleFiles, hlat]
    show List.filter _ (db.ruleFiles ++ _) = _
    rw [List.filter_append]
    have hold : List.filter
        (fun rf => rf.deploymentId == db.deployments.length + 1)
        db.ruleFiles = [] := by
      rw [List.filter_eq_nil_iff]
      intro rf hrf
      have hle : rf.deploymentId ≤ db.deployments.length :=
        of_decide_eq_true (hwfr rf hrf)
      simp only [beq_iff_eq]
      omega
    have hself : List.filter
        (fun rf => rf.deploymentId == db.deployments.length + 1)
        (mkRows db.ruleFiles.length (db.deployments.length + 1)
          (newHash a.hash a.templates) a.templates) =
        mkRows db.ruleFiles.length (db.deployments.length + 1)
          (newHash a.hash a.templates) a.templates := by
      rw [List.filter_eq_self]
      intro rf hrf
      have := mkRows_depId (db.deployments.length + 1)
        (newHash a.hash a.templates) a.templates db.ruleFiles.length rf hrf
      simp [this]
    rw [hold, hself, List.nil_append]
  have hex : ∀ t ∈ a.templates,
      existingHash a.hash (writeAll disk a.templates) t.filename =
        some (a.hash t.content) := by
    intro t ht
    rw [existingHash_eq_lookup,
      lookupMdc_writeAll_mem t (hmdc t ht) a.templates disk hnodup ht]
    rfl
  have hnh : ∀ t ∈ a.templates,
      newHash a.hash a.templates t.filename = some (a.hash t.content) :=
    fun t ht => newHash_mem_nodup a.hash a.templates t hnodup ht
  have hchg : hasChanges a.hash (writeAll disk a.templates)
      (mkRows db.ruleFiles.length (db.deployments.length + 1)
        (newHash a.hash a.templates) a.templates) = false := by
    rw [hasChanges, List.any_eq_false]
    intro rf hrf
    obtain ⟨r, hr, hfn, hch⟩ := mkRows_shape (db.deployments.length + 1)
      (newHash a.hash a.templates) a.templates db.ruleFiles.length rf hrf
    rw [hfn, hex r hr, hch, hnh r hr]
    simp
  have hnt : hasNewTemplate a.hash (writeAll disk a.templates)
      (newRules a.templates ts2) = false := by
    rw [newRules_tokenFree ts2 a.templates htf]
    rw [hasNewTemplate, List.any_eq_false]
    intro r hr
    rw [hex r hr, hnh r hr]
    have hb1 : (a.hash r.content == "") = false :=
      beq_eq_false_iff_ne.mpr (hhash r hr)
    simp [hb1]
  have hinv : 0 < (existingFiles (writeAll disk a.templates)).length := by
    obtain ⟨t0, ht0⟩ := List.exists_mem_of_ne_nil a.templates hnil
    exact lookupMdc_some_inventory _ _ _
      (lookupMdc_writeAll_mem t0 (hmdc t0 ht0) a.templates disk hnodup ht0)
  rw [← hfiles] at hchg
  exact setup_upToDate_eval { a with timestamp := ts2 }
    (writeAll disk a.templates) _ hwr hinv hforce hchg hnt

theorem C5_witness :
    setupProjectRules { argsReal with timestamp := tsTwo }
        (setupProjectRules argsReal [] DB.empty).disk
        (setupProjectRules argsReal [] DB.empty).db =
      ⟨.upToDate, (setupProjectRules argsReal [] DB.empty).db,
        (setupProjectRules argsReal [] DB.empty).disk, []⟩ :=
  C5_amended argsReal [] DB.empty tsTwo
    (by decide) (by decide) (by decide) (by decide) (by decide) (by decide)
    (by decide) (by decide)
    (Or.inl ⟨1, ["code-style.mdc", "architecture.mdc", "testing.mdc",
      "security.mdc", "performance.mdc", "documentation.mdc",
      "git-workflow.mdc", "accessibility.mdc"], none, by decide⟩)
